import Mathlib

/-!
Verification of the depot routing optimizer (`optimizer.py`, `app.py`,
`data_handler.py`) against its natural-language specification.

The MILP model built by `optimize_routes` in `optimizer.py` is embedded as a
satisfaction predicate over 0/1 edge assignments (`link`), 0/1 direct-shipment
assignments (`direct`) and integer position assignments (`u`); the route
reconstruction loops are embedded as fuel-indexed functions returning
`Option` (fuel exhaustion models non-termination of the Python `while` loop).
Driving-time dictionaries are embedded as association lists with the same
lookup/insert semantics as Python dicts.
-/

namespace DepotRouting

/-- Depot designations are strings ("Depot Designation" column). -/
abbrev Loc := String

/-- A solver variable assignment for the model of `optimizer.py`:
`link i j k` is the value of `route_(i,j,k)` (edge i→j chosen in route k),
`direct d` the value of `direct_d`, and `u d k` the value of
`position_(d,k)`. -/
structure Assignment where
  link : Loc → Loc → Nat → Bool
  direct : Loc → Bool
  u : Loc → Nat → Int

/-- `all_locations = [bank] + depots` (optimizer.py line 32). -/
def allLocations (bank : Loc) (depots : List Loc) : List Loc :=
  bank :: depots

/-- `all_routes = list(range(1, max_routes+1))` (optimizer.py line 33). -/
def allRoutes (maxRoutes : Nat) : List Nat :=
  List.range' 1 maxRoutes

/-- Numeric value of a binary variable. -/
def natOf (b : Bool) : Nat :=
  bif b then 1 else 0

/-- Numeric (integer) value of a binary variable, for cost expressions. -/
def intOf (b : Bool) : Int :=
  bif b then 1 else 0

/-- Python `dict.get(key, default)` over an association list. -/
def dget (m : List ((Loc × Loc) × Int)) (p : Loc × Loc) (dflt : Int) : Int :=
  match m.find? (fun e => e.1 = p) with
  | some e => e.2
  | none => dflt

/-- Python `key in dict` over an association list. -/
def dmem (m : List ((Loc × Loc) × Int)) (p : Loc × Loc) : Bool :=
  (m.find? (fun e => e.1 = p)).isSome

/-- Python `dict[key] = v`: the new binding shadows any older one. -/
def dinsert (m : List ((Loc × Loc) × Int)) (p : Loc × Loc) (v : Int) :
    List ((Loc × Loc) × Int) :=
  (p, v) :: m

/-- Number of selected edges entering depot `d` in route `k`:
`lpSum([link[j, d, k] for j in all_locations if j != d])`. -/
def inDegK (bank : Loc) (depots : List Loc) (a : Assignment) (d : Loc) (k : Nat) : Nat :=
  (((allLocations bank depots).filter (fun j => j ≠ d)).map
    (fun j => natOf (a.link j d k))).sum

/-- Number of selected edges leaving depot `d` in route `k`:
`lpSum([link[d, j, k] for j in all_locations if j != d])`. -/
def outDegK (bank : Loc) (depots : List Loc) (a : Assignment) (d : Loc) (k : Nat) : Nat :=
  (((allLocations bank depots).filter (fun j => j ≠ d)).map
    (fun j => natOf (a.link d j k))).sum

/-- Total number of selected edges entering `d`, summed over all routes:
`lpSum([link[j, d, k] for j in all_locations for k in all_routes if j != d])`
(optimizer.py line 59). -/
def inDeg (bank : Loc) (depots : List Loc) (maxRoutes : Nat) (a : Assignment) (d : Loc) : Nat :=
  (((allLocations bank depots).filter (fun j => j ≠ d)).map
    (fun j => ((allRoutes maxRoutes).map (fun k => natOf (a.link j d k))).sum)).sum

/-- Fixed-decision pinning constraints (optimizer.py lines 47-54): a depot
with decision `'Ship to bank'` that is neither the start nor the end point is
pinned to `direct = 1`; a depot with `'Wait for pickup'` is pinned to
`direct = 0`. -/
def fixedOK (depots : List Loc) (sp ep : Loc) (fd : Loc → String) (a : Assignment) : Prop :=
  ∀ d ∈ depots,
    (fd d = "Ship to bank" → d ≠ sp → d ≠ ep → a.direct d = true) ∧
    (fd d = "Wait for pickup" → a.direct d = false)

/-- Coverage constraints (optimizer.py lines 57-59): each depot is either a
direct shipment or entered by exactly one selected edge. -/
def coverageOK (bank : Loc) (depots : List Loc) (maxRoutes : Nat) (a : Assignment) : Prop :=
  ∀ d ∈ depots, natOf (a.direct d) + inDeg bank depots maxRoutes a d = 1

/-- Flow conservation constraints (optimizer.py lines 61-64). -/
def flowOK (bank : Loc) (depots : List Loc) (maxRoutes : Nat) (a : Assignment) : Prop :=
  ∀ d ∈ depots, ∀ k ∈ allRoutes maxRoutes,
    outDegK bank depots a d k = inDegK bank depots a d k

/-- Bank degree constraints (optimizer.py lines 66-70): the bank is left at
most `max_routes` times and reached exactly as often as it is left. -/
def bankDegOK (bank : Loc) (depots : List Loc) (maxRoutes : Nat) (a : Assignment) : Prop :=
  (depots.map (fun j => ((allRoutes maxRoutes).map (fun k => natOf (a.link bank j k))).sum)).sum
      ≤ maxRoutes ∧
  (depots.map (fun j => ((allRoutes maxRoutes).map (fun k => natOf (a.link bank j k))).sum)).sum
      = (depots.map (fun j => ((allRoutes maxRoutes).map (fun k => natOf (a.link j bank k))).sum)).sum

/-- Start anchoring constraint (optimizer.py lines 72-74). -/
def startOK (bank : Loc) (sp : Loc) (maxRoutes : Nat) (a : Assignment) : Prop :=
  sp ≠ bank → ((allRoutes maxRoutes).map (fun k => natOf (a.link bank sp k))).sum = 1

/-- End anchoring constraint (optimizer.py lines 76-78). -/
def endOK (bank : Loc) (ep : Loc) (maxRoutes : Nat) (a : Assignment) : Prop :=
  ep ≠ bank → ((allRoutes maxRoutes).map (fun k => natOf (a.link ep bank k))).sum = 1

/-- MTZ subtour elimination constraints (optimizer.py lines 81-87), with
`M = len(depots)`. -/
def mtzOK (depots : List Loc) (maxRoutes : Nat) (a : Assignment) : Prop :=
  ∀ i ∈ depots, ∀ j ∈ depots, ∀ k ∈ allRoutes maxRoutes, i ≠ j →
    a.u i k - a.u j k + (depots.length : Int) * (natOf (a.link i j k) : Int)
      ≤ (depots.length : Int) - 1

/-- Declared bounds of the integer position variables
(`lowBound=1, upBound=len(depots)`, optimizer.py line 37). -/
def posOK (depots : List Loc) (maxRoutes : Nat) (a : Assignment) : Prop :=
  ∀ d ∈ depots, ∀ k ∈ allRoutes maxRoutes, 1 ≤ a.u d k ∧ a.u d k ≤ (depots.length : Int)

/-- Driving time of route `k` as modeled by the time-budget constraint:
`lpSum([driving_times.get((i, j), 0) * link[i, j, k] for i in all_locations
for j in all_locations if i != j])` (optimizer.py lines 89-92). -/
def routeTimeExpr (bank : Loc) (depots : List Loc) (times : List ((Loc × Loc) × Int))
    (a : Assignment) (k : Nat) : Int :=
  ((allLocations bank depots).map (fun i =>
    (((allLocations bank depots).filter (fun j => i ≠ j)).map
      (fun j => dget times (i, j) 0 * intOf (a.link i j k))).sum)).sum

/-- Per-route time budget constraints (optimizer.py lines 89-92). -/
def timeOK (bank : Loc) (depots : List Loc) (maxRoutes : Nat)
    (times : List ((Loc × Loc) × Int)) (maxTime : Int) (a : Assignment) : Prop :=
  ∀ k ∈ allRoutes maxRoutes, routeTimeExpr bank depots times a k ≤ maxTime

/-- An assignment satisfies the assembled model of `optimize_routes`
(optimizer.py lines 24-92): all constraints hold and all variables are within
their declared domains.  An `Optimal` solver status guarantees this. -/
def feasible (bank : Loc) (depots : List Loc) (sp ep : Loc) (fd : Loc → String)
    (times : List ((Loc × Loc) × Int)) (maxTime : Int) (maxRoutes : Nat)
    (a : Assignment) : Prop :=
  fixedOK depots sp ep fd a ∧
  coverageOK bank depots maxRoutes a ∧
  flowOK bank depots maxRoutes a ∧
  bankDegOK bank depots maxRoutes a ∧
  startOK bank sp maxRoutes a ∧
  endOK bank ep maxRoutes a ∧
  mtzOK depots maxRoutes a ∧
  posOK depots maxRoutes a ∧
  timeOK bank depots maxRoutes times maxTime a

instance (bank : Loc) (depots : List Loc) (sp ep : Loc) (fd : Loc → String)
    (times : List ((Loc × Loc) × Int)) (maxTime : Int) (maxRoutes : Nat)
    (a : Assignment) :
    Decidable (feasible bank depots sp ep fd times maxTime maxRoutes a) := by
  unfold feasible fixedOK coverageOK flowOK bankDegOK startOK endOK mtzOK posOK timeOK
  infer_instance

instance (depots : List Loc) (maxRoutes : Nat) (a : Assignment) :
    Decidable (posOK depots maxRoutes a) := by
  unfold posOK
  infer_instance

instance (depots : List Loc) (maxRoutes : Nat) (a : Assignment) :
    Decidable (mtzOK depots maxRoutes a) := by
  unfold mtzOK
  infer_instance

/-- Extracted direct shipments: `{i for i in depots if direct[i] > 0.5}`
(optimizer.py line 102), as the list of keys in depot order. -/
def directShipments (depots : List Loc) (a : Assignment) : List Loc :=
  depots.filter (fun d => a.direct d)

/-- The depot seeded per `(j, k)` pair by the seeding loop (optimizer.py lines
109-113): one entry `j` for every `j ∈ depots`, `j ≠ start_point`, and `k`
with `link[start_point, j, k] = 1`. -/
def seedTargets (depots : List Loc) (sp : Loc) (maxRoutes : Nat) (a : Assignment) : List Loc :=
  (depots.map (fun j =>
    if j = sp then []
    else ((allRoutes maxRoutes).filter (fun k => a.link sp j k)).map (fun _ => j))).flatten

/-- The seeded partial routes `[start_point, j]` (optimizer.py line 113). -/
def seedRoutes (depots : List Loc) (sp : Loc) (maxRoutes : Nat) (a : Assignment) :
    List (List Loc) :=
  (seedTargets depots sp maxRoutes a).map (fun j => [sp, j])

/-- The depots appended by one iteration of the completion loop's body
(optimizer.py lines 117-123): with `current = route[-1]` fixed, the `j` loop
appends every `j ∈ all_locations`, `j ≠ current`, having `link[current, j, k]
= 1` for some `k` (the `break` leaves only the inner `k` loop). -/
def nexts (bank : Loc) (depots : List Loc) (maxRoutes : Nat) (a : Assignment)
    (current : Loc) : List Loc :=
  (allLocations bank depots).filter
    (fun j => j ≠ current ∧ ∃ k ∈ allRoutes maxRoutes, a.link current j k = true)

/-- One iteration of the `while route[-1] != end_point` body. -/
def extendOnce (bank : Loc) (depots : List Loc) (maxRoutes : Nat) (a : Assignment)
    (route : List Loc) : List Loc :=
  route ++ nexts bank depots maxRoutes a (route.getLastD bank)

/-- The completion loop `while route[-1] != end_point` (optimizer.py lines
116-123), fuel-indexed: `none` means the Python loop does not terminate
within `fuel` iterations. -/
def completeRoute (bank : Loc) (depots : List Loc) (ep : Loc) (maxRoutes : Nat)
    (a : Assignment) : Nat → List Loc → Option (List Loc)
  | 0, _ => none
  | Nat.succ fuel, route =>
      if route.getLastD bank = ep then some route
      else completeRoute bank depots ep maxRoutes a fuel
             (extendOnce bank depots maxRoutes a route)

/-- The `for route in current_routes` loop (optimizer.py lines 116-124):
completes every seeded route in order; if any completion loop diverges the
whole extraction diverges. -/
def completeAll (bank : Loc) (depots : List Loc) (ep : Loc) (maxRoutes : Nat)
    (a : Assignment) (fuel : Nat) : List (List Loc) → Option (List (List Loc))
  | [] => some []
  | r :: rs =>
      match completeRoute bank depots ep maxRoutes a fuel r with
      | none => none
      | some r' =>
          match completeAll bank depots ep maxRoutes a fuel rs with
          | none => none
          | some rs' => some (r' :: rs')

/-- The full route extraction of `optimize_routes` (optimizer.py lines
104-124). -/
def reconstructRoutes (bank : Loc) (depots : List Loc) (sp ep : Loc)
    (maxRoutes : Nat) (a : Assignment) (fuel : Nat) : Option (List (List Loc)) :=
  completeAll bank depots ep maxRoutes a fuel (seedRoutes depots sp maxRoutes a)

/-- Interior stops of a route: all elements except the first and the last. -/
def interior (r : List Loc) : List Loc :=
  (r.drop 1).dropLast

/-- All interior stops of a list of routes, with multiplicity. -/
def interiors (rs : List (List Loc)) : List Loc :=
  (rs.map interior).flatten

/-! ### The simplest variant (`app.py`)

`optimize_routes` in `app.py` has a single edge-variable family `y[i, j]`
with no route index.  Its completion loop (app.py lines 89-97) has a single
`j` loop, so the `break` ends the whole scan: at most one depot is appended
per iteration — the first `j` in `all_locations` with `y[current, j] = 1`. -/

/-- The first `j ∈ all_locations`, `j ≠ current`, with `y[current, j] = 1`
(app.py lines 92-96). -/
def nextApp (bank : Loc) (depots : List Loc) (y : Loc → Loc → Bool) (current : Loc) :
    Option Loc :=
  ((allLocations bank depots).filter (fun j => j ≠ current ∧ y current j = true)).head?

/-- One iteration of the `while route[-1] != bank` body in `app.py`. -/
def extendOnceApp (bank : Loc) (depots : List Loc) (y : Loc → Loc → Bool)
    (route : List Loc) : List Loc :=
  match nextApp bank depots y (route.getLastD bank) with
  | none => route
  | some j => route ++ [j]

/-- The completion loop `while route[-1] != bank` (app.py lines 90-96),
fuel-indexed. -/
def completeRouteApp (bank : Loc) (depots : List Loc) (y : Loc → Loc → Bool) :
    Nat → List Loc → Option (List Loc)
  | 0, _ => none
  | Nat.succ fuel, route =>
      if route.getLastD bank = bank then some route
      else completeRouteApp bank depots y fuel (extendOnceApp bank depots y route)

/-- The seeded partial routes `[bank, j]` (app.py lines 85-87). -/
def seedRoutesApp (bank : Loc) (depots : List Loc) (y : Loc → Loc → Bool) :
    List (List Loc) :=
  (depots.filter (fun j => y bank j)).map (fun j => [bank, j])

/-- The `for route in current_routes` loop of `app.py` (lines 90-97). -/
def completeAllApp (bank : Loc) (depots : List Loc) (y : Loc → Loc → Bool)
    (fuel : Nat) : List (List Loc) → Option (List (List Loc))
  | [] => some []
  | r :: rs =>
      match completeRouteApp bank depots y fuel r with
      | none => none
      | some r' =>
          match completeAllApp bank depots y fuel rs with
          | none => none
          | some rs' => some (r' :: rs')

/-- The full route extraction of `app.py`'s `optimize_routes` (lines 80-97). -/
def reconstructRoutesApp (bank : Loc) (depots : List Loc) (y : Loc → Loc → Bool)
    (fuel : Nat) : Option (List (List Loc)) :=
  completeAllApp bank depots y fuel (seedRoutesApp bank depots y)

/-! ### Driving-times dictionary construction

`app.py` lines 263-272 (inside `main`) and `data_handler.py` lines 71-80
(inside `prepare_optimization_data`) build the driving-times dict with
character-identical code: each row `(d1, d2, t)` sets `times[(d1, d2)] = t`
and, when `(d2, d1)` is not yet a key, also sets `times[(d2, d1)] = t`. -/

/-- Processing of one driving-times row (shared body of app.py lines 266-272
and data_handler.py lines 73-80). -/
def addTimesRow (m : List ((Loc × Loc) × Int)) (row : (Loc × Loc) × Int) :
    List ((Loc × Loc) × Int) :=
  let m1 := dinsert m row.1 row.2
  if dmem m1 (row.1.2, row.1.1) then m1 else dinsert m1 (row.1.2, row.1.1) row.2

/-- The driving-times dict built by `main` in `app.py` (lines 263-272). -/
def mainBuildTimes (rows : List ((Loc × Loc) × Int)) : List ((Loc × Loc) × Int) :=
  rows.foldl addTimesRow []

/-- The driving-times dict built by `prepare_optimization_data` in
`data_handler.py` (lines 71-80). -/
def prepareBuildTimes (rows : List ((Loc × Loc) × Int)) : List ((Loc × Loc) × Int) :=
  rows.foldl addTimesRow []

/-! ### Included-depot list preparation

`data_handler.py` lines 82-97 and `app.py` lines 274-282 identify the bank as
the designation of the first depot record of the sheet and remove its first
occurrence from the included-designation list when present
(`list.remove`). -/

/-- `prepare_optimization_data`'s bank/depot-list computation
(data_handler.py lines 82-97).  `allDesignations` is the full sheet's
"Depot Designation" column; `includedIndices` the selected row indices;
`none` models the `IndexError` of `iloc[0]` on an empty sheet. -/
def prepareDepotList (allDesignations : List Loc) (includedIndices : List Nat) :
    Option (Loc × List Loc) :=
  match allDesignations.head? with
  | none => none
  | some bank =>
      let included := includedIndices.filterMap (fun i => allDesignations.get? i)
      some (bank, if bank ∈ included then included.erase bank else included)

/-- The identical bank/depot-list computation inside `main` in `app.py`
(lines 274-282). -/
def mainDepotList (allDesignations : List Loc) (includedIndices : List Nat) :
    Option (Loc × List Loc) :=
  match allDesignations.head? with
  | none => none
  | some bank =>
      let included := includedIndices.filterMap (fun i => allDesignations.get? i)
      some (bank, if bank ∈ included then included.erase bank else included)

/-! ### Model-construction error behavior (`optimizer.py` lines 24-92)

`optimize_routes` performs no input validation.  A depot missing from
`direct_costs` raises an untyped Python `KeyError` when the objective is
assembled (line 41); a start/end designation outside `all_locations` raises a
`KeyError` when the anchoring constraint indexes the `link` variable dict
(lines 74, 78).  The stages below reproduce, in program order, exactly the
dict lookups of the construction that can fail. -/

/-- Errors observable from the model-construction call.
`configurationError` is the validated, pre-construction error kind described
by the specification (§7); the code never produces it. -/
inductive OptError where
  | configurationError : OptError
  | keyError (key : String) : OptError
  | keyErrorLink (i j : Loc) (k : Nat) : OptError
deriving DecidableEq

/-- `direct_costs` lookup. -/
def lookupCost (costs : List (Loc × Int)) (d : Loc) : Option Int :=
  (costs.find? (fun e => e.1 = d)).map (fun e => e.2)

/-- `fixed_decisions` lookup. -/
def lookupFixed (fds : List (Loc × String)) (d : Loc) : Option String :=
  (fds.find? (fun e => e.1 = d)).map (fun e => e.2)

/-- The `direct_costs[i]` lookups of the objective (optimizer.py line 41), in
depot order; the first missing key raises `KeyError`. -/
def costStage (costs : List (Loc × Int)) : List Loc → Except OptError Unit
  | [] => Except.ok ()
  | d :: ds =>
      match lookupCost costs d with
      | none => Except.error (OptError.keyError d)
      | some _ => costStage costs ds

/-- The `fixed_decisions[i]` lookups (optimizer.py line 49), in depot order. -/
def fixedStage (fds : List (Loc × String)) : List Loc → Except OptError Unit
  | [] => Except.ok ()
  | d :: ds =>
      match lookupFixed fds d with
      | none => Except.error (OptError.keyError d)
      | some _ => fixedStage fds ds

/-- The `link[(i, j, k)]` lookups of an anchoring constraint over the `k`
comprehension: the key exists iff `i ≠ j` and both endpoints are in
`all_locations` (optimizer.py line 34). -/
def linkKeysCheck (bank : Loc) (depots : List Loc) (i j : Loc) :
    List Nat → Except OptError Unit
  | [] => Except.ok ()
  | k :: ks =>
      if i ≠ j ∧ i ∈ allLocations bank depots ∧ j ∈ allLocations bank depots
      then linkKeysCheck bank depots i j ks
      else Except.error (OptError.keyErrorLink i j k)

/-- The dict lookups of `optimize_routes`'s model construction that can fail,
in program order: objective cost lookups (line 41), fixed-decision lookups
(line 49), start-anchor link lookups (line 74), end-anchor link lookups
(line 78).  All other constraint lookups only index keys that exist. -/
def buildModel (bank : Loc) (depots : List Loc) (sp ep : Loc)
    (costs : List (Loc × Int)) (fds : List (Loc × String)) (maxRoutes : Nat) :
    Except OptError Unit :=
  match costStage costs depots with
  | Except.error e => Except.error e
  | Except.ok _ =>
      match fixedStage fds depots with
      | Except.error e => Except.error e
      | Except.ok _ =>
          match (if sp = bank then Except.ok ()
                 else linkKeysCheck bank depots bank sp (allRoutes maxRoutes)) with
          | Except.error e => Except.error e
          | Except.ok _ =>
              if ep = bank then Except.ok ()
              else linkKeysCheck bank depots ep bank (allRoutes maxRoutes)

/-! ### Concrete scenarios -/

/-- Splicing scenario: bank `B`, depots `S, A, E`, start `S`, end `E`,
two routes.  Route 1 is `B → S → A → B`, route 2 is `B → E → B`. -/
def exSpliceDepots : List Loc := ["S", "A", "E"]

/-- The edge assignment of the splicing scenario. -/
def exSpliceLink : Loc → Loc → Nat → Bool := fun i j k =>
  (i == "B" && j == "S" && k == 1) || (i == "S" && j == "A" && k == 1) ||
  (i == "A" && j == "B" && k == 1) ||
  (i == "B" && j == "E" && k == 2) || (i == "E" && j == "B" && k == 2)

/-- The full solver assignment of the splicing scenario. -/
def exSplice : Assignment where
  link := exSpliceLink
  direct := fun _ => false
  u := fun d k => if d = "A" ∧ k = 1 then 2 else 1

/-- Default-anchor scenario: bank `B`, depots `A, C, D`, one route
`B → A → C → B`, depot `D` shipped direct (`'Ship to bank'`), depot `A`
pinned to pickup (`'Wait for pickup'`). -/
def exPlainDepots : List Loc := ["A", "C", "D"]

/-- Fixed decisions of the default-anchor scenario. -/
def exPlainFixed : Loc → String := fun d =>
  if d = "A" then "Wait for pickup" else if d = "D" then "Ship to bank" else "Not fixed"

/-- Driving times of the default-anchor scenario. -/
def exPlainTimes : List ((Loc × Loc) × Int) :=
  [(("B", "A"), 20), (("A", "C"), 15), (("C", "B"), 25)]

/-- The full solver assignment of the default-anchor scenario. -/
def exPlain : Assignment where
  link := fun i j k =>
    (i == "B" && j == "A" && k == 1) || (i == "A" && j == "C" && k == 1) ||
    (i == "C" && j == "B" && k == 1)
  direct := fun d => d == "D"
  u := fun d _ => if d = "C" then 2 else 1

/-- Custom-anchor scenario: bank `B`, depots `S, E`, start `S`, end `E`,
single route `B → S → E → B`. -/
def exAnchor : Assignment where
  link := fun i j k =>
    (i == "B" && j == "S" && k == 1) || (i == "S" && j == "E" && k == 1) ||
    (i == "E" && j == "B" && k == 1)
  direct := fun _ => false
  u := fun d _ => if d = "E" then 2 else 1

/-- Malformed solver output: the only selected edge is `B → A` in route 1;
depot `A` has no outgoing selected edge. -/
def exStuck : Assignment where
  link := fun i j k => i == "B" && j == "A" && k == 1
  direct := fun _ => false
  u := fun _ _ => 1

/-- Total number of selected edges leaving `d`, summed over all routes
(derived quantity, mirroring `inDeg`). -/
def outDeg (bank : Loc) (depots : List Loc) (maxRoutes : Nat) (a : Assignment) (d : Loc) : Nat :=
  (((allLocations bank depots).filter (fun j => j ≠ d)).map
    (fun j => ((allRoutes maxRoutes).map (fun k => natOf (a.link d j k))).sum)).sum

/-- The hypotheses shared by the route-walk lemmas: the structural
constraints of the model hold and the depot list is well formed (the bank is
not among the depots, designations are unique — as guaranteed by
`prepare_optimization_data`). -/
structure CoreH (bank : Loc) (depots : List Loc) (maxRoutes : Nat) (a : Assignment) : Prop where
  cover : coverageOK bank depots maxRoutes a
  flow : flowOK bank depots maxRoutes a
  mtz : mtzOK depots maxRoutes a
  pos : posOK depots maxRoutes a
  nb : bank ∉ depots
  nd : depots.Nodup

/-- The idealized route walk: starting from `c`, repeatedly step to the
unique successor until the end point is reached (or fuel runs out). -/
def chainFrom (bank : Loc) (depots : List Loc) (ep : Loc) (maxRoutes : Nat)
    (a : Assignment) : Nat → Loc → List Loc
  | 0, c => [c]
  | Nat.succ fuel, c =>
      if c = ep then [c]
      else
        match nexts bank depots maxRoutes a c with
        | [] => [c]
        | j :: _ => c :: chainFrom bank depots ep maxRoutes a fuel j

/-- The all-zero assignment with every position equal to 1. -/
def exIdle : Assignment where
  link := fun _ _ _ => false
  direct := fun _ => false
  u := fun _ _ => 1

/-- A single-route edge assignment for the `app.py` variant:
`B → A → B`. -/
def exYApp : Loc → Loc → Bool := fun i j =>
  (i == "B" && j == "A") || (i == "A" && j == "B")

example : feasible "B" exSpliceDepots "S" "E" (fun _ => "Not fixed") [] 0 2 exSplice := by
  decide

example :
    reconstructRoutes "B" exSpliceDepots "S" "E" 2 exSplice 10
      = some [["S", "A", "B", "S", "E"]] := by
  decide

example :
    feasible "B" exPlainDepots "B" "B" exPlainFixed exPlainTimes 90 1 exPlain := by
  decide

example :
    reconstructRoutes "B" exPlainDepots "B" "B" 1 exPlain 6
      = some [["B", "A", "C", "B"]] := by
  decide

example : feasible "B" ["S", "E"] "S" "E" (fun _ => "Not fixed") [] 0 1 exAnchor := by
  decide

example : reconstructRoutes "B" ["S", "E"] "S" "E" 1 exAnchor 6 = some [["S", "E"]] := by
  decide

/-! ### Generic list-sum helpers -/

/-- A list of naturals summing to 1 has exactly one nonzero entry. -/
theorem sum_map_eq_one {α : Type} (f : α → Nat) :
    ∀ l : List α, (l.map f).sum = 1 →
      ∃ x, x ∈ l ∧ f x = 1 ∧ l.filter (fun y => f y ≠ 0) = [x]
  | [], h => by simp at h
  | a :: t, h => by
      simp only [List.map_cons, List.sum_cons] at h
      rcases Nat.lt_or_ge (f a) 1 with ha | ha
      · have ha0 : f a = 0 := by omega
        have ht : (t.map f).sum = 1 := by omega
        obtain ⟨x, hx, hfx, hfilter⟩ := sum_map_eq_one f t ht
        refine ⟨x, List.mem_cons_of_mem _ hx, hfx, ?_⟩
        rw [List.filter_cons]
        simp only [ne_eq, decide_not] at hfilter ⊢
        simp [ha0, hfilter]
      · have ha1 : f a = 1 := by omega
        have ht : (t.map f).sum = 0 := by omega
        have hz : ∀ y ∈ t, f y = 0 := by
          intro y hy
          have : f y ≤ (t.map f).sum := List.le_sum_of_mem (List.mem_map_of_mem f hy)
          omega
        have hnil : (t.filter (fun y => f y ≠ 0)) = [] := by
          rw [List.filter_eq_nil_iff]
          intro y hy
          simp [hz y hy]
        refine ⟨a, List.mem_cons_self a t, ha1, ?_⟩
        rw [List.filter_cons]
        simp only [ne_eq, decide_not] at hnil ⊢
        simp [ha1, hnil]

/-- Uniqueness consequence of `sum_map_eq_one`. -/
theorem eq_of_ne_zero_of_filter_single {α : Type} (f : α → Nat) (l : List α) (x : α)
    (hfilter : l.filter (fun y => f y ≠ 0) = [x]) :
    ∀ y ∈ l, f y ≠ 0 → y = x := by
  intro y hy hfy
  have : y ∈ l.filter (fun y => f y ≠ 0) := by
    apply List.mem_filter.mpr
    exact ⟨hy, by simpa using hfy⟩
  rw [hfilter] at this
  simpa using this

/-- Exchanging two nested list sums. -/
theorem sum_map_comm {α β : Type} (f : α → β → Nat) :
    ∀ (l₁ : List α) (l₂ : List β),
      (l₁.map (fun x => (l₂.map (f x)).sum)).sum
        = (l₂.map (fun y => (l₁.map (fun x => f x y)).sum)).sum
  | [], l₂ => by simp [List.map_const]
  | a :: t, l₂ => by
      simp only [List.map_cons, List.sum_cons, sum_map_comm f t l₂]
      induction l₂ with
      | nil => simp
      | cons b t₂ ih => simp only [List.map_cons, List.sum_cons] at *; omega

/-- A sum of naturals over a list is nonzero iff some entry is nonzero. -/
theorem sum_map_ne_zero_iff {α : Type} (f : α → Nat) (l : List α) :
    (l.map f).sum ≠ 0 ↔ ∃ x ∈ l, f x ≠ 0 := by
  induction l with
  | nil => simp
  | cons a t ih =>
      simp only [List.map_cons, List.sum_cons, List.mem_cons]
      constructor
      · intro h
        rcases Nat.eq_zero_or_pos (f a) with h0 | h0
        · rw [h0] at h
          simp only [Nat.zero_add] at h
          obtain ⟨x, hx, hfx⟩ := ih.mp h
          exact ⟨x, Or.inr hx, hfx⟩
        · exact ⟨a, Or.inl rfl, by omega⟩
      · rintro ⟨x, hx | hx, hfx⟩
        · subst hx; omega
        · have : (t.map f).sum ≠ 0 := ih.mpr ⟨x, hx, hfx⟩
          omega

/-- The length of a filtered list as a sum of indicator values. -/
theorem length_filter_eq_sum_natOf {α : Type} (p : α → Bool) :
    ∀ l : List α, (l.filter p).length = (l.map (fun x => natOf (p x))).sum
  | [] => rfl
  | a :: t => by
      rw [List.filter_cons]
      cases h : p a <;>
        simp [natOf, h, length_filter_eq_sum_natOf p t, Nat.add_comm]

/-- Summing the indicator of equality against a fixed value counts its
occurrences. -/
theorem sum_ite_eq_count {α : Type} [DecidableEq α] (x₀ : α) :
    ∀ l : List α, (l.map (fun x => if x = x₀ then 1 else 0)).sum = l.count x₀
  | [] => rfl
  | a :: t => by
      by_cases h : a = x₀ <;>
        simp [List.count_cons, h, sum_ite_eq_count x₀ t, Nat.add_comm]

/-- A doubly indexed family of naturals summing to 1 has exactly one nonzero
entry, and the outer list has exactly one index with a nonzero inner sum. -/
theorem sum_sum_eq_one {α β : Type} (g : α → β → Nat) (l₁ : List α) (l₂ : List β)
    (h : (l₁.map (fun x => (l₂.map (g x)).sum)).sum = 1) :
    ∃ x y, x ∈ l₁ ∧ y ∈ l₂ ∧ g x y = 1 ∧
      (∀ x' y', x' ∈ l₁ → y' ∈ l₂ → g x' y' ≠ 0 → x' = x ∧ y' = y) ∧
      l₁.filter (fun x' => (l₂.map (g x')).sum ≠ 0) = [x] := by
  obtain ⟨x, hx, hFx, hfx⟩ := sum_map_eq_one (fun x => (l₂.map (g x)).sum) l₁ h
  obtain ⟨y, hy, hgy, hfy⟩ := sum_map_eq_one (g x) l₂ hFx
  refine ⟨x, y, hx, hy, hgy, ?_, hfx⟩
  intro x' y' hx' hy' hne
  have hFx' : (l₂.map (g x')).sum ≠ 0 := by
    have hle : g x' y' ≤ (l₂.map (g x')).sum :=
      List.le_sum_of_mem (List.mem_map_of_mem (g x') hy')
    omega
  have hxx : x' = x := eq_of_ne_zero_of_filter_single _ l₁ x hfx x' hx' hFx'
  subst hxx
  exact ⟨rfl, eq_of_ne_zero_of_filter_single _ l₂ y hfy y' hy' hne⟩

/-! ### Degree bookkeeping for the optimizer model -/

theorem inDeg_eq_sum_inDegK (bank : Loc) (depots : List Loc) (maxRoutes : Nat)
    (a : Assignment) (d : Loc) :
    inDeg bank depots maxRoutes a d
      = ((allRoutes maxRoutes).map (fun k => inDegK bank depots a d k)).sum := by
  unfold inDeg inDegK
  exact sum_map_comm _ _ _

theorem outDeg_eq_sum_outDegK (bank : Loc) (depots : List Loc) (maxRoutes : Nat)
    (a : Assignment) (d : Loc) :
    outDeg bank depots maxRoutes a d
      = ((allRoutes maxRoutes).map (fun k => outDegK bank depots a d k)).sum := by
  unfold outDeg outDegK
  exact sum_map_comm _ _ _

/-- Flow conservation summed over routes: total out-degree equals total
in-degree at every depot. -/
theorem outDeg_eq_inDeg (bank : Loc) (depots : List Loc) (maxRoutes : Nat)
    (a : Assignment) (d : Loc) (hflow : flowOK bank depots maxRoutes a)
    (hd : d ∈ depots) :
    outDeg bank depots maxRoutes a d = inDeg bank depots maxRoutes a d := by
  rw [outDeg_eq_sum_outDegK, inDeg_eq_sum_inDegK]
  apply congrArg
  apply List.map_congr_left
  intro k hk
  exact hflow d hd k hk

/-- A depot not shipped direct is entered exactly once in total. -/
theorem inDeg_one_of_visited (bank : Loc) (depots : List Loc) (maxRoutes : Nat)
    (a : Assignment) (d : Loc) (hcov : coverageOK bank depots maxRoutes a)
    (hd : d ∈ depots) (hdir : a.direct d = false) :
    inDeg bank depots maxRoutes a d = 1 := by
  have := hcov d hd
  rw [hdir] at this
  simpa [natOf] using this

/-- A single selected in-edge witnesses a positive in-degree for its route. -/
theorem inDegK_pos_of_link (bank : Loc) (depots : List Loc) (a : Assignment)
    (i d : Loc) (k : Nat) (hi : i ∈ allLocations bank depots) (hne : i ≠ d)
    (hl : a.link i d k = true) : 1 ≤ inDegK bank depots a d k := by
  unfold inDegK
  have hmem : i ∈ (allLocations bank depots).filter (fun j => j ≠ d) := by
    rw [List.mem_filter]
    exact ⟨hi, by simpa using hne⟩
  have : natOf (a.link i d k) ≤ _ :=
    List.le_sum_of_mem (List.mem_map_of_mem (fun j => natOf (a.link j d k)) hmem)
  rw [hl] at this
  simpa [natOf] using this

/-- A depot entered by some route is not shipped direct. -/
theorem direct_false_of_inDegK_pos (bank : Loc) (depots : List Loc) (maxRoutes : Nat)
    (a : Assignment) (d : Loc) (k : Nat) (hcov : coverageOK bank depots maxRoutes a)
    (hd : d ∈ depots) (hk : k ∈ allRoutes maxRoutes)
    (hpos : 1 ≤ inDegK bank depots a d k) : a.direct d = false := by
  have hcd := hcov d hd
  have hle : inDegK bank depots a d k ≤ inDeg bank depots maxRoutes a d := by
    rw [inDeg_eq_sum_inDegK]
    exact List.le_sum_of_mem (List.mem_map_of_mem (fun k => inDegK bank depots a d k) hk)
  cases h : a.direct d
  · rfl
  · rw [h] at hcd
    simp only [natOf, cond_true] at hcd
    omega

/-- A visited depot has a unique selected outgoing edge `(j, k)` over all
routes, and the completion step appends exactly `[j]`. -/
theorem succ_unique (bank : Loc) (depots : List Loc) (maxRoutes : Nat) (a : Assignment)
    (d : Loc) (hcov : coverageOK bank depots maxRoutes a)
    (hflow : flowOK bank depots maxRoutes a)
    (hd : d ∈ depots) (hdir : a.direct d = false) :
    ∃ j k, nexts bank depots maxRoutes a d = [j] ∧ j ∈ allLocations bank depots ∧ j ≠ d ∧
      k ∈ allRoutes maxRoutes ∧ a.link d j k = true ∧
      (∀ j' k', j' ∈ allLocations bank depots → j' ≠ d → k' ∈ allRoutes maxRoutes →
        a.link d j' k' = true → j' = j ∧ k' = k) := by
  have hout : outDeg bank depots maxRoutes a d = 1 := by
    rw [outDeg_eq_inDeg bank depots maxRoutes a d hflow hd]
    exact inDeg_one_of_visited bank depots maxRoutes a d hcov hd hdir
  obtain ⟨j, k, hjl, hk, hjk, huniq, hfilter⟩ :=
    sum_sum_eq_one (fun j k => natOf (a.link d j k))
      ((allLocations bank depots).filter (fun j => j ≠ d)) (allRoutes maxRoutes) hout
  have hj : j ∈ allLocations bank depots := (List.mem_filter.mp hjl).1
  have hjd : j ≠ d := by
    have := (List.mem_filter.mp hjl).2
    simpa using this
  have hlink : a.link d j k = true := by
    revert hjk
    cases a.link d j k <;> simp [natOf]
  have hnexts : nexts bank depots maxRoutes a d = [j] := by
    unfold nexts
    rw [← hfilter, List.filter_filter]
    apply List.filter_congr
    intro x hx
    have : (x ≠ d ∧ ∃ k ∈ allRoutes maxRoutes, a.link d x k = true)
        ↔ (((allRoutes maxRoutes).map (fun k => natOf (a.link d x k))).sum ≠ 0 ∧ x ≠ d) := by
      rw [sum_map_ne_zero_iff]
      constructor
      · rintro ⟨hxd, kk, hkk, hlk⟩
        exact ⟨⟨kk, hkk, by simp [natOf, hlk]⟩, hxd⟩
      · rintro ⟨⟨kk, hkk, hlk⟩, hxd⟩
        refine ⟨hxd, kk, hkk, ?_⟩
        revert hlk
        cases a.link d x kk <;> simp [natOf]
    rw [decide_eq_decide.mpr this, Bool.decide_and]
  refine ⟨j, k, hnexts, hj, hjd, hk, hlink, ?_⟩
  intro j' k' hj' hjd' hk' hl'
  have hj'm : j' ∈ (allLocations bank depots).filter (fun j => j ≠ d) := by
    rw [List.mem_filter]
    exact ⟨hj', by simpa using hjd'⟩
  exact huniq j' k' hj'm hk' (by simp [natOf, hl'])

/-- A visited depot has a unique selected incoming edge `(i, k)` over all
routes. -/
theorem pred_unique (bank : Loc) (depots : List Loc) (maxRoutes : Nat) (a : Assignment)
    (d : Loc) (hcov : coverageOK bank depots maxRoutes a)
    (hd : d ∈ depots) (hdir : a.direct d = false) :
    ∃ i k, i ∈ allLocations bank depots ∧ i ≠ d ∧
      k ∈ allRoutes maxRoutes ∧ a.link i d k = true ∧
      (∀ i' k', i' ∈ allLocations bank depots → i' ≠ d → k' ∈ allRoutes maxRoutes →
        a.link i' d k' = true → i' = i ∧ k' = k) := by
  have hin : inDeg bank depots maxRoutes a d = 1 :=
    inDeg_one_of_visited bank depots maxRoutes a d hcov hd hdir
  obtain ⟨i, k, hil, hk, hik, huniq, _⟩ :=
    sum_sum_eq_one (fun i k => natOf (a.link i d k))
      ((allLocations bank depots).filter (fun j => j ≠ d)) (allRoutes maxRoutes) hin
  have hi : i ∈ allLocations bank depots := (List.mem_filter.mp hil).1
  have hid : i ≠ d := by
    have := (List.mem_filter.mp hil).2
    simpa using this
  have hlink : a.link i d k = true := by
    revert hik
    cases a.link i d k <;> simp [natOf]
  refine ⟨i, k, hi, hid, hk, hlink, ?_⟩
  intro i' k' hi' hid' hk' hl'
  have hi'm : i' ∈ (allLocations bank depots).filter (fun j => j ≠ d) := by
    rw [List.mem_filter]
    exact ⟨hi', by simpa using hid'⟩
  exact huniq i' k' hi'm hk' (by simp [natOf, hl'])

/-! ### The route-walk chain under the model constraints -/

/-- Core step of the route walk: a depot entered by route `k` has exactly one
selected outgoing edge overall, that edge belongs to the same route `k`, and
it leads either back to the bank or to a depot entered by route `k` with a
strictly larger position. -/
theorem walk_step (bank : Loc) (depots : List Loc) (maxRoutes : Nat) (a : Assignment)
    (H : CoreH bank depots maxRoutes a) (c : Loc) (k : Nat)
    (hc : c ∈ depots) (hk : k ∈ allRoutes maxRoutes)
    (hin : 1 ≤ inDegK bank depots a c k) :
    ∃ j, nexts bank depots maxRoutes a c = [j] ∧ a.link c j k = true ∧ j ≠ c ∧
      (j = bank ∨ (j ∈ depots ∧ 1 ≤ inDegK bank depots a j k ∧ a.u c k < a.u j k)) := by
  have hdir : a.direct c = false :=
    direct_false_of_inDegK_pos bank depots maxRoutes a c k H.cover hc hk hin
  obtain ⟨j, k₀, hnexts, hjloc, hjc, hk₀, hlink₀, huniq⟩ :=
    succ_unique bank depots maxRoutes a c H.cover H.flow hc hdir
  have hout : 1 ≤ outDegK bank depots a c k := by
    rw [H.flow c hc k hk]
    exact hin
  have : outDegK bank depots a c k ≠ 0 := by omega
  unfold outDegK at this
  obtain ⟨j', hj'm, hj'ne⟩ := (sum_map_ne_zero_iff _ _).mp this
  have hj'loc : j' ∈ allLocations bank depots := (List.mem_filter.mp hj'm).1
  have hj'c : j' ≠ c := by
    have := (List.mem_filter.mp hj'm).2
    simpa using this
  have hl' : a.link c j' k = true := by
    revert hj'ne
    cases a.link c j' k <;> simp [natOf]
  obtain ⟨hjj, hkk⟩ := huniq j' k hj'loc hj'c hk hl'
  subst hjj
  subst hkk
  refine ⟨j', hnexts, hl', hj'c, ?_⟩
  rcases List.mem_cons.mp hj'loc with hb | hdep
  · exact Or.inl hb
  · refine Or.inr ⟨hdep, ?_, ?_⟩
    · exact inDegK_pos_of_link bank depots a c j' k
        (List.mem_cons_of_mem bank hc) (fun h => hj'c h.symm) hl'
    · have hmtz := H.mtz c hc j' hdep k hk (fun h => hj'c h.symm)
      rw [hl'] at hmtz
      simp only [natOf, cond_true] at hmtz
      omega

theorem chainFrom_at_ep (bank : Loc) (depots : List Loc) (ep : Loc) (maxRoutes : Nat)
    (a : Assignment) : ∀ fuel, chainFrom bank depots ep maxRoutes a fuel ep = [ep]
  | 0 => rfl
  | Nat.succ _ => by simp [chainFrom]

theorem chainFrom_step (bank : Loc) (depots : List Loc) (ep : Loc) (maxRoutes : Nat)
    (a : Assignment) (fuel : Nat) (c j : Loc) (hne : c ≠ ep)
    (hnexts : nexts bank depots maxRoutes a c = [j]) :
    chainFrom bank depots ep maxRoutes a (fuel + 1) c
      = c :: chainFrom bank depots ep maxRoutes a fuel j := by
  simp [chainFrom, hne, hnexts]

theorem completeRoute_succ (bank : Loc) (depots : List Loc) (ep : Loc) (maxRoutes : Nat)
    (a : Assignment) (fuel : Nat) (route : List Loc) :
    completeRoute bank depots ep maxRoutes a (fuel + 1) route =
      if route.getLastD bank = ep then some route
      else completeRoute bank depots ep maxRoutes a fuel
            (extendOnce bank depots maxRoutes a route) := rfl

theorem getLast?_cons_of_ne_nil {α : Type} (a : α) (l : List α) (h : l ≠ []) :
    (a :: l).getLast? = l.getLast? := by
  rcases List.exists_cons_of_ne_nil h with ⟨b, t, rfl⟩
  rfl

/-- Master lemma on the route walk under the model constraints, for the
default anchors (`start_point = end_point = bank`).  For a depot `c` entered
by route `k` and enough fuel, the completion loop started on `pre ++ [c]`
terminates and appends exactly the chain `chainFrom fuel c`; the chain starts
at `c`, ends at the bank, its non-final elements are depots entered by route
`k` with non-decreasing positions, it has no duplicate non-final element, the
unique successor of each non-final element is again in the chain, and every
non-final element other than `c` is the unique successor of a non-final
element. -/
theorem chain_master (bank : Loc) (depots : List Loc) (maxRoutes : Nat) (a : Assignment)
    (H : CoreH bank depots maxRoutes a) :
    ∀ (fuel : Nat) (c : Loc) (k : Nat), c ∈ depots → k ∈ allRoutes maxRoutes →
      1 ≤ inDegK bank depots a c k →
      ((depots.length : Int) + 2 ≤ (fuel : Int) + a.u c k) →
      (chainFrom bank depots bank maxRoutes a fuel c).head? = some c ∧
      (chainFrom bank depots bank maxRoutes a fuel c).getLast? = some bank ∧
      (∀ pre : List Loc,
        completeRoute bank depots bank maxRoutes a fuel (pre ++ [c])
          = some (pre ++ chainFrom bank depots bank maxRoutes a fuel c)) ∧
      (∀ x ∈ (chainFrom bank depots bank maxRoutes a fuel c).dropLast,
        x ∈ depots ∧ 1 ≤ inDegK bank depots a x k ∧ a.u c k ≤ a.u x k) ∧
      (chainFrom bank depots bank maxRoutes a fuel c).dropLast.Nodup ∧
      (∀ x ∈ (chainFrom bank depots bank maxRoutes a fuel c).dropLast,
        ∃ j', nexts bank depots maxRoutes a x = [j'] ∧
          j' ∈ chainFrom bank depots bank maxRoutes a fuel c) ∧
      (∀ x ∈ (chainFrom bank depots bank maxRoutes a fuel c).dropLast,
        x = c ∨ ∃ w ∈ (chainFrom bank depots bank maxRoutes a fuel c).dropLast,
          nexts bank depots maxRoutes a w = [x]) := by
  intro fuel
  induction fuel with
  | zero =>
      intro c k hc hk _ hb
      exfalso
      have hpos := H.pos c hc k hk
      have hlen : (0 : Int) ≤ (depots.length : Int) := by positivity
      push_cast at hb
      omega
  | succ fuel ih =>
      intro c k hc hk hin hb
      have hcb : c ≠ bank := fun h => H.nb (h ▸ hc)
      have hpos := H.pos c hc k hk
      obtain ⟨j, hnexts, hlink, hjc, hcase⟩ :=
        walk_step bank depots maxRoutes a H c k hc hk hin
      rw [chainFrom_step bank depots bank maxRoutes a fuel c j hcb hnexts]
      rcases hcase with hjb | ⟨hjd, hjin, hult⟩
      · -- the unique successor is the bank: the chain is `[c, bank]`
        rw [hjb] at hnexts hjc
        rw [hjb, chainFrom_at_ep]
        refine ⟨rfl, rfl, ?_, ?_, ?_, ?_, ?_⟩
        · intro pre
          obtain ⟨fuel', rfl⟩ : ∃ f', fuel = f' + 1 := by
            refine ⟨fuel - 1, ?_⟩
            push_cast at hb
            omega
          rw [completeRoute_succ, List.getLastD_concat, if_neg hcb]
          unfold extendOnce
          rw [List.getLastD_concat, hnexts]
          rw [completeRoute_succ, List.getLastD_concat, if_pos rfl]
          simp
        · intro x hx
          simp only [List.dropLast_cons₂, List.dropLast_single, List.mem_singleton] at hx
          subst hx
          exact ⟨hc, hin, le_refl _⟩
        · simp
        · intro x hx
          simp only [List.dropLast_cons₂, List.dropLast_single, List.mem_singleton] at hx
          subst hx
          exact ⟨bank, hnexts, by simp⟩
        · intro x hx
          simp only [List.dropLast_cons₂, List.dropLast_single, List.mem_singleton] at hx
          exact Or.inl hx
      · -- the unique successor is a depot: recurse
        have hbj : (depots.length : Int) + 2 ≤ (fuel : Int) + a.u j k := by
          push_cast at hb ⊢
          omega
        obtain ⟨ih0, ih2, ih1, ih3, ih4, ih5, ih6⟩ := ih j k hjd hk hjin hbj
        have hl'ne : chainFrom bank depots bank maxRoutes a fuel j ≠ [] := by
          intro h
          rw [h] at ih0
          simp at ih0
        have hjmem : j ∈ chainFrom bank depots bank maxRoutes a fuel j :=
          List.mem_of_mem_head? ih0
        have hdl : (c :: chainFrom bank depots bank maxRoutes a fuel j).dropLast
            = c :: (chainFrom bank depots bank maxRoutes a fuel j).dropLast :=
          List.dropLast_cons_of_ne_nil hl'ne
        refine ⟨rfl, ?_, ?_, ?_, ?_, ?_, ?_⟩
        · rw [getLast?_cons_of_ne_nil _ _ hl'ne]
          exact ih2
        · intro pre
          rw [completeRoute_succ, List.getLastD_concat, if_neg hcb]
          unfold extendOnce
          rw [List.getLastD_concat, hnexts]
          have h1 := ih1 (pre ++ [c])
          simp only [List.append_assoc, List.singleton_append, List.cons_append,
            List.nil_append] at h1 ⊢
          exact h1
        · rw [hdl]
          intro x hx
          rcases List.mem_cons.mp hx with rfl | hx'
          · exact ⟨hc, hin, le_refl _⟩
          · obtain ⟨hxd, hxin, hxu⟩ := ih3 x hx'
            exact ⟨hxd, hxin, le_trans (le_of_lt hult) hxu⟩
        · rw [hdl]
          rw [List.nodup_cons]
          refine ⟨?_, ih4⟩
          intro hmem
          obtain ⟨_, _, hxu⟩ := ih3 c hmem
          omega
        · rw [hdl]
          intro x hx
          rcases List.mem_cons.mp hx with rfl | hx'
          · exact ⟨j, hnexts, List.mem_cons_of_mem _ hjmem⟩
          · obtain ⟨j', hn', hj'⟩ := ih5 x hx'
            exact ⟨j', hn', List.mem_cons_of_mem _ hj'⟩
        · rw [hdl]
          intro x hx
          rcases List.mem_cons.mp hx with rfl | hx'
          · exact Or.inl rfl
          · rcases ih6 x hx' with rfl | ⟨w, hw, hnw⟩
            · exact Or.inr ⟨c, List.mem_cons_self _ _, hnexts⟩
            · exact Or.inr ⟨w, List.mem_cons_of_mem _ hw, hnw⟩

theorem head_mem_dropLast {α : Type} (l : List α) (c b : α) (hh : l.head? = some c)
    (hl : l.getLast? = some b) (hne : c ≠ b) : c ∈ l.dropLast := by
  rcases l with _ | ⟨x, t⟩
  · simp at hh
  · simp only [List.head?_cons, Option.some.injEq] at hh
    subst hh
    rcases t with _ | ⟨y, t'⟩
    · simp only [List.getLast?_singleton, Option.some.injEq] at hl
      exact absurd hl hne
    · rw [List.dropLast_cons_of_ne_nil (by simp)]
      exact List.mem_cons_self _ _

/-- If every selected in-edge of `v` comes from the bank, then `v` can occur
in a walk chain only as its starting depot. -/
theorem chain_mem_bank_pred (bank : Loc) (depots : List Loc) (maxRoutes : Nat)
    (a : Assignment) (H : CoreH bank depots maxRoutes a) (fuel : Nat) (c : Loc) (k : Nat)
    (hc : c ∈ depots) (hk : k ∈ allRoutes maxRoutes)
    (hin : 1 ≤ inDegK bank depots a c k)
    (hb : (depots.length : Int) + 2 ≤ (fuel : Int) + a.u c k)
    (v : Loc)
    (hvp : ∀ i' k', i' ∈ allLocations bank depots → i' ≠ v → k' ∈ allRoutes maxRoutes →
      a.link i' v k' = true → i' = bank) :
    v ∈ (chainFrom bank depots bank maxRoutes a fuel c).dropLast → v = c := by
  intro hv
  obtain ⟨_, _, _, c3, _, _, c6⟩ := chain_master bank depots maxRoutes a H fuel c k hc hk hin hb
  rcases c6 v hv with rfl | ⟨w, hw, hnw⟩
  · rfl
  · exfalso
    obtain ⟨hwd, hwin, _⟩ := c3 w hw
    have hwdir : a.direct w = false :=
      direct_false_of_inDegK_pos bank depots maxRoutes a w k H.cover hwd hk hwin
    obtain ⟨js, ks, hnexts, _, hjws, hks, hlks, _⟩ :=
      succ_unique bank depots maxRoutes a w H.cover H.flow hwd hwdir
    rw [hnw] at hnexts
    obtain rfl : js = v := by
      simpa using hnexts.symm
    have : w = bank := hvp w ks (List.mem_cons_of_mem _ hwd) (fun h => hjws h.symm) hks hlks
    exact H.nb (this ▸ hwd)

/-- If every selected in-edge of `v` comes from the depot `w₀`, then `v`
occurs in a walk chain only as its starting depot or after an occurrence of
`w₀`. -/
theorem chain_mem_depot_pred_fwd (bank : Loc) (depots : List Loc) (maxRoutes : Nat)
    (a : Assignment) (H : CoreH bank depots maxRoutes a) (fuel : Nat) (c : Loc) (k : Nat)
    (hc : c ∈ depots) (hk : k ∈ allRoutes maxRoutes)
    (hin : 1 ≤ inDegK bank depots a c k)
    (hb : (depots.length : Int) + 2 ≤ (fuel : Int) + a.u c k)
    (v w₀ : Loc)
    (hvp : ∀ i' k', i' ∈ allLocations bank depots → i' ≠ v → k' ∈ allRoutes maxRoutes →
      a.link i' v k' = true → i' = w₀) :
    v ∈ (chainFrom bank depots bank maxRoutes a fuel c).dropLast →
      v = c ∨ w₀ ∈ (chainFrom bank depots bank maxRoutes a fuel c).dropLast := by
  intro hv
  obtain ⟨_, _, _, c3, _, _, c6⟩ := chain_master bank depots maxRoutes a H fuel c k hc hk hin hb
  rcases c6 v hv with rfl | ⟨w, hw, hnw⟩
  · exact Or.inl rfl
  · obtain ⟨hwd, hwin, _⟩ := c3 w hw
    have hwdir : a.direct w = false :=
      direct_false_of_inDegK_pos bank depots maxRoutes a w k H.cover hwd hk hwin
    obtain ⟨js, ks, hnexts, _, hjws, hks, hlks, _⟩ :=
      succ_unique bank depots maxRoutes a w H.cover H.flow hwd hwdir
    rw [hnw] at hnexts
    obtain rfl : js = v := by
      simpa using hnexts.symm
    have : w = w₀ := hvp w ks (List.mem_cons_of_mem _ hwd) (fun h => hjws h.symm) hks hlks
    exact Or.inr (this ▸ hw)

/-- If the depot `w₀` has a selected edge to the depot `v`, then any walk
chain containing `w₀` as a non-final element also contains `v` as a non-final
element. -/
theorem chain_mem_depot_pred_bwd (bank : Loc) (depots : List Loc) (maxRoutes : Nat)
    (a : Assignment) (H : CoreH bank depots maxRoutes a) (fuel : Nat) (c : Loc) (k : Nat)
    (hc : c ∈ depots) (hk : k ∈ allRoutes maxRoutes)
    (hin : 1 ≤ inDegK bank depots a c k)
    (hb : (depots.length : Int) + 2 ≤ (fuel : Int) + a.u c k)
    (v w₀ : Loc) (hv : v ∈ depots) (_hw₀d : w₀ ∈ depots) (k₀ : Nat)
    (hk₀ : k₀ ∈ allRoutes maxRoutes) (hlk : a.link w₀ v k₀ = true) (hw₀v : w₀ ≠ v) :
    w₀ ∈ (chainFrom bank depots bank maxRoutes a fuel c).dropLast →
      v ∈ (chainFrom bank depots bank maxRoutes a fuel c).dropLast := by
  intro hw
  obtain ⟨c0, c2, _, c3, _, c5, _⟩ := chain_master bank depots maxRoutes a H fuel c k hc hk hin hb
  obtain ⟨hwd, hwin, _⟩ := c3 w₀ hw
  have hwdir : a.direct w₀ = false :=
    direct_false_of_inDegK_pos bank depots maxRoutes a w₀ k H.cover hwd hk hwin
  obtain ⟨js, ks, hnexts, _, _, _, _, huniq⟩ :=
    succ_unique bank depots maxRoutes a w₀ H.cover H.flow hwd hwdir
  obtain ⟨hjv, _⟩ := huniq v k₀ (List.mem_cons_of_mem _ hv) (fun h => hw₀v h.symm) hk₀ hlk
  obtain ⟨j', hn', hj'mem⟩ := c5 w₀ hw
  rw [hnexts] at hn'
  have hj'v : j' = v := by
    have h1 : js = j' := by simpa using hn'
    rw [← h1, ← hjv]
  rw [hj'v] at hj'mem
  -- `v ∈ chain`, and `v` is not the final bank, so `v` is non-final
  have hlne : chainFrom bank depots bank maxRoutes a fuel c ≠ [] := by
    intro h
    rw [h] at c0
    simp at c0
  have hlast : (chainFrom bank depots bank maxRoutes a fuel c).getLast hlne = bank := by
    have := List.getLast?_eq_getLast (chainFrom bank depots bank maxRoutes a fuel c) hlne
    rw [this] at c2
    simpa using c2
  have hsplit := List.dropLast_concat_getLast hlne
  rw [hlast] at hsplit
  rw [← hsplit] at hj'mem
  rcases List.mem_append.mp hj'mem with hmem | hmem
  · exact hmem
  · exfalso
    have : v = bank := by simpa using hmem
    exact H.nb (this ▸ hv)

/-! ### Seeded routes -/

theorem mem_seedTargets (depots : List Loc) (sp : Loc) (maxRoutes : Nat) (a : Assignment)
    (j : Loc) :
    j ∈ seedTargets depots sp maxRoutes a ↔
      j ∈ depots ∧ j ≠ sp ∧ ∃ k ∈ allRoutes maxRoutes, a.link sp j k = true := by
  unfold seedTargets
  rw [List.mem_flatten]
  constructor
  · rintro ⟨l, hl, hjl⟩
    rw [List.mem_map] at hl
    obtain ⟨j', hj', rfl⟩ := hl
    by_cases hsp : j' = sp
    · simp [hsp] at hjl
    · rw [if_neg hsp] at hjl
      rw [List.mem_map] at hjl
      obtain ⟨k, hk, rfl⟩ := hjl
      rw [List.mem_filter] at hk
      exact ⟨hj', hsp, k, hk.1, hk.2⟩
  · rintro ⟨hj, hsp, k, hk, hlk⟩
    refine ⟨((allRoutes maxRoutes).filter (fun k => a.link sp j k)).map (fun _ => j),
      ?_, ?_⟩
    · rw [List.mem_map]
      exact ⟨j, hj, by rw [if_neg hsp]⟩
    · rw [List.mem_map]
      exact ⟨k, List.mem_filter.mpr ⟨hk, hlk⟩, rfl⟩

theorem count_map_const {α β : Type} [DecidableEq β] (c v : β) (l : List α) :
    (l.map (fun _ => c)).count v = if v = c then l.length else 0 := by
  induction l with
  | nil => simp
  | cons x t ih =>
      rw [List.map_cons, List.count_cons, ih]
      by_cases h : v = c
      · simp [h]
      · simp only [if_neg h]
        have : ¬c = v := fun hh => h hh.symm
        simp [this]

theorem sum_map_ite_eq {α : Type} [DecidableEq α] (g : α → Nat) (v : α) (l : List α) :
    l.Nodup → v ∈ l → (l.map (fun x => if x = v then g x else 0)).sum = g v := by
  induction l with
  | nil => intro _ hv; simp at hv
  | cons x t ih =>
      intro hnd hv
      rw [List.nodup_cons] at hnd
      rcases List.mem_cons.mp hv with rfl | hv'
      · have hz : (t.map (fun y => if y = v then g y else 0)).sum = 0 := by
          by_contra hne
          obtain ⟨y, hy, hgy⟩ := (sum_map_ne_zero_iff _ t).mp hne
          by_cases h : y = v
          · exact hnd.1 (h ▸ hy)
          · simp [h] at hgy
        simp [hz]
      · have hx : ¬x = v := fun h => hnd.1 (h ▸ hv')
        simp [hx, ih hnd.2 hv']

theorem count_seedTargets (depots : List Loc) (sp : Loc) (maxRoutes : Nat)
    (a : Assignment) (hnd : depots.Nodup) (v : Loc) (hv : v ∈ depots) (hvs : v ≠ sp) :
    (seedTargets depots sp maxRoutes a).count v
      = ((allRoutes maxRoutes).map (fun k => natOf (a.link sp v k))).sum := by
  unfold seedTargets
  rw [List.count_flatten, List.map_map]
  have hpt : ∀ j ∈ depots,
      ((List.count v ∘ fun j => if j = sp then []
        else ((allRoutes maxRoutes).filter (fun k => a.link sp j k)).map (fun _ => j)) j)
      = (fun j => if j = v
          then ((allRoutes maxRoutes).filter (fun k => a.link sp v k)).length else 0) j := by
    intro j _
    simp only [Function.comp_apply]
    by_cases hjs : j = sp
    · rw [if_pos hjs, if_neg (fun h : j = v => hvs (h ▸ hjs))]
      simp
    · rw [if_neg hjs, count_map_const]
      by_cases hjv : v = j
      · subst hjv
        simp
      · rw [if_neg hjv, if_neg (fun h : j = v => hjv h.symm)]
  rw [List.map_congr_left hpt]
  rw [sum_map_ite_eq _ v depots hnd hv]
  exact length_filter_eq_sum_natOf _ _

theorem outDegK_pos_of_link (bank : Loc) (depots : List Loc) (a : Assignment)
    (d j : Loc) (k : Nat) (hj : j ∈ allLocations bank depots) (hne : j ≠ d)
    (hl : a.link d j k = true) : 1 ≤ outDegK bank depots a d k := by
  unfold outDegK
  have hmem : j ∈ (allLocations bank depots).filter (fun j' => j' ≠ d) := by
    rw [List.mem_filter]
    exact ⟨hj, by simpa using hne⟩
  have : natOf (a.link d j k) ≤ _ :=
    List.le_sum_of_mem (List.mem_map_of_mem (fun j' => natOf (a.link d j' k)) hmem)
  rw [hl] at this
  simpa [natOf] using this

/-- Every depot not shipped direct occurs exactly once among the non-final
elements of the walk chains of the seeded routes (counted with
multiplicity over all seeds).  Induction on the position value of the
depot. -/
theorem chains_count_aux (bank : Loc) (depots : List Loc) (maxRoutes : Nat)
    (a : Assignment) (H : CoreH bank depots maxRoutes a) (fuel : Nat)
    (hf : depots.length + 2 ≤ fuel) :
    ∀ n : Nat, ∀ v i₀ k₀, v ∈ depots →
      i₀ ∈ allLocations bank depots → i₀ ≠ v → k₀ ∈ allRoutes maxRoutes →
      a.link i₀ v k₀ = true →
      (∀ i' k', i' ∈ allLocations bank depots → i' ≠ v → k' ∈ allRoutes maxRoutes →
        a.link i' v k' = true → i' = i₀ ∧ k' = k₀) →
      (a.u v k₀).toNat ≤ n →
      ((seedTargets depots bank maxRoutes a).map
        (fun j => (chainFrom bank depots bank maxRoutes a fuel j).dropLast)).flatten.count v
        = 1 := by
  have hflat : ∀ x : Loc,
      ((seedTargets depots bank maxRoutes a).map
        (fun j => (chainFrom bank depots bank maxRoutes a fuel j).dropLast)).flatten.count x
      = ((seedTargets depots bank maxRoutes a).map
          (fun j => ((chainFrom bank depots bank maxRoutes a fuel j).dropLast).count x)).sum := by
    intro x
    rw [List.count_flatten, List.map_map]
    rfl
  have hseed : ∀ j, j ∈ seedTargets depots bank maxRoutes a →
      ∃ kj, j ∈ depots ∧ j ≠ bank ∧ kj ∈ allRoutes maxRoutes ∧
        a.link bank j kj = true ∧ 1 ≤ inDegK bank depots a j kj ∧
        ((depots.length : Int) + 2 ≤ (fuel : Int) + a.u j kj) := by
    intro j hj
    obtain ⟨hjd, hjb, kj, hkj, hljk⟩ := (mem_seedTargets depots bank maxRoutes a j).mp hj
    have hinj : 1 ≤ inDegK bank depots a j kj :=
      inDegK_pos_of_link bank depots a bank j kj (List.mem_cons_self _ _)
        (fun h => hjb h.symm) hljk
    have hbj : (depots.length : Int) + 2 ≤ (fuel : Int) + a.u j kj := by
      have := (H.pos j hjd kj hkj).1
      omega
    exact ⟨kj, hjd, hjb, hkj, hljk, hinj, hbj⟩
  intro n
  induction n with
  | zero =>
      intro v i₀ k₀ hv _ _ hk₀ _ _ htn
      exfalso
      have := (H.pos v hv k₀ hk₀).1
      omega
  | succ n ih =>
      intro v i₀ k₀ hv hi₀loc hi₀v hk₀ hl₀ huniq htn
      have hvb : v ≠ bank := fun h => H.nb (h ▸ hv)
      rcases List.mem_cons.mp hi₀loc with hi₀b | hi₀dep
      · -- the unique in-edge of `v` comes from the bank: `v` is a seed target
        rw [hi₀b] at hl₀
        have huniq' : ∀ i' k', i' ∈ allLocations bank depots → i' ≠ v →
            k' ∈ allRoutes maxRoutes → a.link i' v k' = true → i' = bank ∧ k' = k₀ := by
          intro i' k' h1 h2 h3 h4
          obtain ⟨ha, hb⟩ := huniq i' k' h1 h2 h3 h4
          exact ⟨hi₀b ▸ ha, hb⟩
        clear huniq hi₀v hi₀loc hi₀b
        rw [hflat]
        have hpt : ∀ j ∈ seedTargets depots bank maxRoutes a,
            ((chainFrom bank depots bank maxRoutes a fuel j).dropLast).count v
              = if j = v then 1 else 0 := by
          intro j hjs
          obtain ⟨kj, hjd, hjb, hkj, hljk, hinj, hbj⟩ := hseed j hjs
          obtain ⟨c0, c2, _, _, c4, _, _⟩ :=
            chain_master bank depots maxRoutes a H fuel j kj hjd hkj hinj hbj
          by_cases hjv : j = v
          · subst hjv
            rw [if_pos rfl]
            exact List.count_eq_one_of_mem c4
              (head_mem_dropLast _ j bank c0 c2 (fun h => H.nb (h ▸ hjd)))
          · rw [if_neg hjv]
            rw [List.count_eq_zero]
            intro hmem
            have := chain_mem_bank_pred bank depots maxRoutes a H fuel j kj hjd hkj hinj hbj v
              (fun i' k' hi' hi'v hk' hl' => (huniq' i' k' hi' hi'v hk' hl').1) hmem
            exact hjv this.symm
        rw [List.map_congr_left hpt, sum_ite_eq_count v _ , count_seedTargets depots bank
          maxRoutes a H.nd v hv hvb]
        have hpt2 : ∀ k ∈ allRoutes maxRoutes,
            natOf (a.link bank v k) = if k = k₀ then 1 else 0 := by
          intro k hk
          by_cases hkk : k = k₀
          · subst hkk
            rw [if_pos rfl, hl₀]
            rfl
          · rw [if_neg hkk]
            cases hl : a.link bank v k
            · rfl
            · exfalso
              exact hkk (huniq' bank k (List.mem_cons_self _ _) (fun h => hvb h.symm) hk hl).2
        rw [List.map_congr_left hpt2, sum_ite_eq_count k₀ _]
        unfold allRoutes
        exact List.count_eq_one_of_mem (List.nodup_range' 1 maxRoutes) hk₀
      · -- the unique in-edge of `v` comes from a depot `i₀`: recurse on `i₀`
        have hout : 1 ≤ outDegK bank depots a i₀ k₀ :=
          outDegK_pos_of_link bank depots a i₀ v k₀ (List.mem_cons_of_mem _ hv)
            (fun h => hi₀v h.symm) hl₀
        have hwin : 1 ≤ inDegK bank depots a i₀ k₀ := by
          rw [← H.flow i₀ hi₀dep k₀ hk₀]
          exact hout
        have hwdir : a.direct i₀ = false :=
          direct_false_of_inDegK_pos bank depots maxRoutes a i₀ k₀ H.cover hi₀dep hk₀ hwin
        obtain ⟨i₁, k₁, hi₁loc, hi₁ne, hk₁, hl₁, huniq₁⟩ :=
          pred_unique bank depots maxRoutes a i₀ H.cover hi₀dep hwdir
        have hk₁k₀ : k₁ = k₀ := by
          have hne : inDegK bank depots a i₀ k₀ ≠ 0 := by omega
          unfold inDegK at hne
          obtain ⟨i', hi'm, hi'ne⟩ := (sum_map_ne_zero_iff _ _).mp hne
          have hi'loc : i' ∈ allLocations bank depots := (List.mem_filter.mp hi'm).1
          have hi'i₀ : i' ≠ i₀ := by
            have := (List.mem_filter.mp hi'm).2
            simpa using this
          have hli' : a.link i' i₀ k₀ = true := by
            revert hi'ne
            cases a.link i' i₀ k₀ <;> simp [natOf]
          exact (huniq₁ i' k₀ hi'loc hi'i₀ hk₀ hli').2.symm
        rw [hk₁k₀] at hl₁
        have huniq₁' : ∀ i' k', i' ∈ allLocations bank depots → i' ≠ i₀ →
            k' ∈ allRoutes maxRoutes → a.link i' i₀ k' = true → i' = i₁ ∧ k' = k₀ := by
          intro i' k' h1 h2 h3 h4
          obtain ⟨ha, hb⟩ := huniq₁ i' k' h1 h2 h3 h4
          exact ⟨ha, hk₁k₀ ▸ hb⟩
        have hmtzwv : a.u i₀ k₀ < a.u v k₀ := by
          have hmtz := H.mtz i₀ hi₀dep v hv k₀ hk₀ hi₀v
          rw [hl₀] at hmtz
          simp only [natOf, cond_true] at hmtz
          omega
        have htn' : (a.u i₀ k₀).toNat ≤ n := by
          have h1 := (H.pos i₀ hi₀dep k₀ hk₀).1
          have h2 := (H.pos v hv k₀ hk₀).1
          omega
        have hcw := ih i₀ i₁ k₀ hi₀dep hi₁loc hi₁ne hk₀ hl₁ huniq₁' htn'
        rw [hflat] at hcw ⊢
        have hpt : ∀ j ∈ seedTargets depots bank maxRoutes a,
            ((chainFrom bank depots bank maxRoutes a fuel j).dropLast).count v
              = ((chainFrom bank depots bank maxRoutes a fuel j).dropLast).count i₀ := by
          intro j hjs
          obtain ⟨kj, hjd, hjb, hkj, hljk, hinj, hbj⟩ := hseed j hjs
          obtain ⟨_, _, _, _, c4, _, _⟩ :=
            chain_master bank depots maxRoutes a H fuel j kj hjd hkj hinj hbj
          have hfw : v ∈ (chainFrom bank depots bank maxRoutes a fuel j).dropLast →
              i₀ ∈ (chainFrom bank depots bank maxRoutes a fuel j).dropLast := by
            intro hmem
            rcases chain_mem_depot_pred_fwd bank depots maxRoutes a H fuel j kj hjd hkj hinj
              hbj v i₀ (fun i' k' hi' hi'v hk' hl' => (huniq i' k' hi' hi'v hk' hl').1)
              hmem with rfl | hcc
            · exfalso
              have : bank = i₀ :=
                (huniq bank kj (List.mem_cons_self _ _) (fun h => hvb h.symm) hkj hljk).1
              exact H.nb (this ▸ hi₀dep)
            · exact hcc
          have hbw : i₀ ∈ (chainFrom bank depots bank maxRoutes a fuel j).dropLast →
              v ∈ (chainFrom bank depots bank maxRoutes a fuel j).dropLast :=
            chain_mem_depot_pred_bwd bank depots maxRoutes a H fuel j kj hjd hkj hinj hbj
              v i₀ hv hi₀dep k₀ hk₀ hl₀ hi₀v
          by_cases hvm : v ∈ (chainFrom bank depots bank maxRoutes a fuel j).dropLast
          · rw [List.count_eq_one_of_mem c4 hvm, List.count_eq_one_of_mem c4 (hfw hvm)]
          · rw [List.count_eq_zero.mpr hvm, List.count_eq_zero.mpr (fun h => hvm (hbw h))]
        rw [List.map_congr_left hpt]
        exact hcw

theorem completeAll_map (bank : Loc) (depots : List Loc) (ep : Loc) (maxRoutes : Nat)
    (a : Assignment) (fuel : Nat) (f g : Loc → List Loc) :
    ∀ js : List Loc,
      (∀ j ∈ js, completeRoute bank depots ep maxRoutes a fuel (f j) = some (g j)) →
      completeAll bank depots ep maxRoutes a fuel (js.map f) = some (js.map g)
  | [], _ => rfl
  | j :: js, h => by
      rw [List.map_cons, List.map_cons]
      unfold completeAll
      rw [h j (List.mem_cons_self _ _)]
      rw [completeAll_map bank depots ep maxRoutes a fuel f g js
        (fun j' hj' => h j' (List.mem_cons_of_mem _ hj'))]

/-- Under the model constraints with default anchors, the extraction loop of
`optimize_routes` terminates and returns one route `bank :: chain` per seeded
`(j, k)` pair. -/
theorem reconstruct_eq_chains (bank : Loc) (depots : List Loc) (maxRoutes : Nat)
    (a : Assignment) (H : CoreH bank depots maxRoutes a) (fuel : Nat)
    (hf : depots.length + 2 ≤ fuel) :
    reconstructRoutes bank depots bank bank maxRoutes a fuel
      = some ((seedTargets depots bank maxRoutes a).map
          (fun j => bank :: chainFrom bank depots bank maxRoutes a fuel j)) := by
  unfold reconstructRoutes seedRoutes
  apply completeAll_map
  intro j hj
  obtain ⟨hjd, hjb, kj, hkj, hljk⟩ := (mem_seedTargets depots bank maxRoutes a j).mp hj
  have hinj : 1 ≤ inDegK bank depots a j kj :=
    inDegK_pos_of_link bank depots a bank j kj (List.mem_cons_self _ _)
      (fun h => hjb h.symm) hljk
  have hbj : (depots.length : Int) + 2 ≤ (fuel : Int) + a.u j kj := by
    have := (H.pos j hjd kj hkj).1
    omega
  obtain ⟨_, _, c1, _, _, _, _⟩ :=
    chain_master bank depots maxRoutes a H fuel j kj hjd hkj hinj hbj
  have := c1 [bank]
  simpa using this

theorem countP_mem_eq_one {α : Type} [DecidableEq α] (v : α) (L : List (List α))
    (h : (L.map (List.count v)).sum = 1) : L.countP (fun l => v ∈ l) = 1 := by
  obtain ⟨x, _, _, hfilter⟩ := sum_map_eq_one (List.count v) L h
  rw [List.countP_eq_length_filter]
  have : L.filter (fun l => v ∈ l) = L.filter (fun l => List.count v l ≠ 0) := by
    apply List.filter_congr
    intro l _
    apply decide_eq_decide.mpr
    rw [ne_eq, List.count_eq_zero, not_not]
  rw [this, hfilter]
  rfl

/-- Core partition result for the default anchors: under the model
constraints, route reconstruction succeeds and each depot is either a direct
shipment or an interior stop of exactly one route. -/
theorem partition_default_anchors (bank : Loc) (depots : List Loc) (fd : Loc → String)
    (times : List ((Loc × Loc) × Int)) (maxTime : Int) (maxRoutes : Nat) (a : Assignment)
    (hfeas : feasible bank depots bank bank fd times maxTime maxRoutes a)
    (hnb : bank ∉ depots) (hnd : depots.Nodup)
    (fuel : Nat) (hf : depots.length + 2 ≤ fuel) :
    ∃ rs, reconstructRoutes bank depots bank bank maxRoutes a fuel = some rs ∧
      (∀ x ∈ interiors rs, x ∈ depots ∧ a.direct x = false ∧
        x ∉ directShipments depots a) ∧
      (∀ d ∈ depots, a.direct d = true →
        d ∈ directShipments depots a ∧ d ∉ interiors rs) ∧
      (∀ d ∈ depots, a.direct d = false → d ∉ directShipments depots a ∧
        (interiors rs).count d = 1 ∧ rs.countP (fun r => d ∈ interior r) = 1) := by
  obtain ⟨hfix, hcov, hflow, hbankc, hstart, hend, hmtz, hpos, htime⟩ := hfeas
  have H : CoreH bank depots maxRoutes a := ⟨hcov, hflow, hmtz, hpos, hnb, hnd⟩
  refine ⟨_, reconstruct_eq_chains bank depots maxRoutes a H fuel hf, ?_, ?_, ?_⟩
  all_goals
    set rs := (seedTargets depots bank maxRoutes a).map
      (fun j => bank :: chainFrom bank depots bank maxRoutes a fuel j) with hrs
  all_goals
    have hint : interiors rs = ((seedTargets depots bank maxRoutes a).map
        (fun j => (chainFrom bank depots bank maxRoutes a fuel j).dropLast)).flatten := by
      unfold interiors
      rw [hrs, List.map_map]
      rfl
  all_goals
    have hmm : ∀ x ∈ interiors rs, x ∈ depots ∧ a.direct x = false := by
      rw [hint]
      intro x hx
      rw [List.mem_flatten] at hx
      obtain ⟨l, hl, hxl⟩ := hx
      rw [List.mem_map] at hl
      obtain ⟨j, hj, rfl⟩ := hl
      obtain ⟨hjd, hjb, kj, hkj, hljk⟩ := (mem_seedTargets depots bank maxRoutes a j).mp hj
      have hinj : 1 ≤ inDegK bank depots a j kj :=
        inDegK_pos_of_link bank depots a bank j kj (List.mem_cons_self _ _)
          (fun h => hjb h.symm) hljk
      have hbj : (depots.length : Int) + 2 ≤ (fuel : Int) + a.u j kj := by
        have := (H.pos j hjd kj hkj).1
        omega
      obtain ⟨_, _, _, c3, _, _, _⟩ :=
        chain_master bank depots maxRoutes a H fuel j kj hjd hkj hinj hbj
      obtain ⟨hxd, hxin, _⟩ := c3 x hxl
      exact ⟨hxd, direct_false_of_inDegK_pos bank depots maxRoutes a x kj H.cover hxd hkj hxin⟩
  · -- interior stops are depots, not direct, and not direct-shipment keys
    intro x hx
    obtain ⟨hxd, hxdir⟩ := hmm x hx
    refine ⟨hxd, hxdir, ?_⟩
    intro hds
    unfold directShipments at hds
    rw [List.mem_filter] at hds
    rw [hxdir] at hds
    simpa using hds.2
  · -- direct depots are direct-shipment keys and not interior stops
    intro d hd hdir
    constructor
    · unfold directShipments
      rw [List.mem_filter]
      exact ⟨hd, by rw [hdir]⟩
    · intro hmem
      obtain ⟨_, hdir'⟩ := hmm d hmem
      rw [hdir] at hdir'
      exact Bool.true_eq_false.mp hdir'
  · -- visited depots: not direct keys, interior stop of exactly one route
    intro d hd hdir
    have hcount : (interiors rs).count d = 1 := by
      rw [hint]
      obtain ⟨i₀, k₀, hi₀loc, hi₀ne, hk₀, hl₀, huniq⟩ :=
        pred_unique bank depots maxRoutes a d hcov hd hdir
      exact chains_count_aux bank depots maxRoutes a H fuel hf ((a.u d k₀).toNat) d i₀ k₀
        hd hi₀loc hi₀ne hk₀ hl₀ huniq (le_refl _)
    refine ⟨?_, hcount, ?_⟩
    · intro hds
      unfold directShipments at hds
      rw [List.mem_filter] at hds
      rw [hdir] at hds
      simpa using hds.2
    · have h2 : (interiors rs).count d = ((rs.map interior).map (List.count d)).sum := by
        unfold interiors
        rw [List.count_flatten]
      rw [h2] at hcount
      have h3 := countP_mem_eq_one d (rs.map interior) hcount
      rw [List.countP_map] at h3
      simpa [Function.comp] using h3

/-! ### Structural facts about route extraction (any anchors, any assignment) -/

theorem completeRoute_head (bank : Loc) (depots : List Loc) (ep : Loc) (maxRoutes : Nat)
    (a : Assignment) :
    ∀ (fuel : Nat) (r r' : List Loc), r ≠ [] →
      completeRoute bank depots ep maxRoutes a fuel r = some r' → r'.head? = r.head?
  | 0, r, r', _, h => by simp [completeRoute] at h
  | fuel + 1, r, r', hne, h => by
      rw [completeRoute_succ] at h
      by_cases hc : r.getLastD bank = ep
      · rw [if_pos hc] at h
        obtain rfl : r = r' := by simpa using h
        rfl
      · rw [if_neg hc] at h
        have hext : extendOnce bank depots maxRoutes a r ≠ [] := by
          unfold extendOnce
          simp [hne]
        have := completeRoute_head bank depots ep maxRoutes a fuel _ r' hext h
        rw [this]
        unfold extendOnce
        exact List.head?_append_of_ne_nil _ hne

theorem completeRoute_last (bank : Loc) (depots : List Loc) (ep : Loc) (maxRoutes : Nat)
    (a : Assignment) :
    ∀ (fuel : Nat) (r r' : List Loc),
      completeRoute bank depots ep maxRoutes a fuel r = some r' → r'.getLastD bank = ep
  | 0, r, r', h => by simp [completeRoute] at h
  | fuel + 1, r, r', h => by
      rw [completeRoute_succ] at h
      by_cases hc : r.getLastD bank = ep
      · rw [if_pos hc] at h
        obtain rfl : r = r' := by simpa using h
        exact hc
      · rw [if_neg hc] at h
        exact completeRoute_last bank depots ep maxRoutes a fuel _ r' h

theorem completeAll_sources (bank : Loc) (depots : List Loc) (ep : Loc) (maxRoutes : Nat)
    (a : Assignment) (fuel : Nat) :
    ∀ (seeds rs : List (List Loc)),
      completeAll bank depots ep maxRoutes a fuel seeds = some rs →
      ∀ r' ∈ rs, ∃ r ∈ seeds, completeRoute bank depots ep maxRoutes a fuel r = some r'
  | [], rs, h => by
      obtain rfl : ([] : List (List Loc)) = rs := by simpa [completeAll] using h
      intro r' hr'
      simp at hr'
  | s :: seeds, rs, h => by
      unfold completeAll at h
      cases hs : completeRoute bank depots ep maxRoutes a fuel s with
      | none => rw [hs] at h; simp at h
      | some s' =>
          rw [hs] at h
          cases hall : completeAll bank depots ep maxRoutes a fuel seeds with
          | none => rw [hall] at h; simp at h
          | some rs' =>
              rw [hall] at h
              obtain rfl : s' :: rs' = rs := by simpa using h
              intro r' hr'
              rcases List.mem_cons.mp hr' with rfl | hr''
              · exact ⟨s, List.mem_cons_self _ _, hs⟩
              · obtain ⟨r, hr, hcr⟩ :=
                  completeAll_sources bank depots ep maxRoutes a fuel seeds rs' hall r' hr''
                exact ⟨r, List.mem_cons_of_mem _ hr, hcr⟩

/-! ### Structural facts for the `app.py` extraction -/

theorem completeRouteApp_succ (bank : Loc) (depots : List Loc) (y : Loc → Loc → Bool)
    (fuel : Nat) (route : List Loc) :
    completeRouteApp bank depots y (fuel + 1) route =
      if route.getLastD bank = bank then some route
      else completeRouteApp bank depots y fuel (extendOnceApp bank depots y route) := rfl

theorem completeRouteApp_head (bank : Loc) (depots : List Loc) (y : Loc → Loc → Bool) :
    ∀ (fuel : Nat) (r r' : List Loc), r ≠ [] →
      completeRouteApp bank depots y fuel r = some r' → r'.head? = r.head?
  | 0, r, r', _, h => by simp [completeRouteApp] at h
  | fuel + 1, r, r', hne, h => by
      rw [completeRouteApp_succ] at h
      by_cases hc : r.getLastD bank = bank
      · rw [if_pos hc] at h
        obtain rfl : r = r' := by simpa using h
        rfl
      · rw [if_neg hc] at h
        have hext : extendOnceApp bank depots y r ≠ [] := by
          unfold extendOnceApp
          cases nextApp bank depots y (r.getLastD bank) <;> simp [hne]
        have := completeRouteApp_head bank depots y fuel _ r' hext h
        rw [this]
        unfold extendOnceApp
        cases nextApp bank depots y (r.getLastD bank)
        · rfl
        · exact List.head?_append_of_ne_nil _ hne

theorem completeRouteApp_last (bank : Loc) (depots : List Loc) (y : Loc → Loc → Bool) :
    ∀ (fuel : Nat) (r r' : List Loc),
      completeRouteApp bank depots y fuel r = some r' → r'.getLastD bank = bank
  | 0, r, r', h => by simp [completeRouteApp] at h
  | fuel + 1, r, r', h => by
      rw [completeRouteApp_succ] at h
      by_cases hc : r.getLastD bank = bank
      · rw [if_pos hc] at h
        obtain rfl : r = r' := by simpa using h
        exact hc
      · rw [if_neg hc] at h
        exact completeRouteApp_last bank depots y fuel _ r' h

theorem completeAllApp_sources (bank : Loc) (depots : List Loc) (y : Loc → Loc → Bool)
    (fuel : Nat) :
    ∀ (seeds rs : List (List Loc)),
      completeAllApp bank depots y fuel seeds = some rs →
      ∀ r' ∈ rs, ∃ r ∈ seeds, completeRouteApp bank depots y fuel r = some r'
  | [], rs, h => by
      obtain rfl : ([] : List (List Loc)) = rs := by simpa [completeAllApp] using h
      intro r' hr'
      simp at hr'
  | s :: seeds, rs, h => by
      unfold completeAllApp at h
      cases hs : completeRouteApp bank depots y fuel s with
      | none => rw [hs] at h; simp at h
      | some s' =>
          rw [hs] at h
          cases hall : completeAllApp bank depots y fuel seeds with
          | none => rw [hall] at h; simp at h
          | some rs' =>
              rw [hall] at h
              obtain rfl : s' :: rs' = rs := by simpa using h
              intro r' hr'
              rcases List.mem_cons.mp hr' with rfl | hr''
              · exact ⟨s, List.mem_cons_self _ _, hs⟩
              · obtain ⟨r, hr, hcr⟩ :=
                  completeAllApp_sources bank depots y fuel seeds rs' hall r' hr''
                exact ⟨r, List.mem_cons_of_mem _ hr, hcr⟩

/-- The `while` loop of optimizer.py diverges on the malformed assignment
`exStuck`: depot `A` has no selected outgoing edge, so the route never
changes. -/
theorem stuck_route_diverges :
    ∀ fuel, completeRoute "B" ["A"] "B" 1 exStuck fuel ["B", "A"] = none
  | 0 => rfl
  | fuel + 1 => by
      rw [completeRoute_succ, if_neg (by decide)]
      have hext : extendOnce "B" ["A"] 1 exStuck ["B", "A"] = ["B", "A"] := by decide
      rw [hext]
      exact stuck_route_diverges fuel

/-! ### Construction-error lemmas (`optimizer.py` has no input validation) -/

theorem costStage_error (costs : List (Loc × Int)) :
    ∀ (depots : List Loc) (d : Loc),
      depots.find? (fun d' => (lookupCost costs d').isNone) = some d →
      costStage costs depots = Except.error (OptError.keyError d)
  | [], d, h => by simp at h
  | d' :: ds, d, h => by
      rw [List.find?_cons] at h
      unfold costStage
      cases hl : lookupCost costs d' with
      | none =>
          rw [hl] at h
          simp only [Option.isNone_none, cond_true, Option.some.injEq] at h
          subst h
          rfl
      | some c =>
          rw [hl] at h
          simp only [Option.isNone_some, cond_false] at h
          exact costStage_error costs ds d h

theorem costStage_ok (costs : List (Loc × Int)) :
    ∀ depots : List Loc, (∀ d ∈ depots, (lookupCost costs d).isSome) →
      costStage costs depots = Except.ok ()
  | [], _ => rfl
  | d' :: ds, h => by
      unfold costStage
      cases hl : lookupCost costs d' with
      | none =>
          have := h d' (List.mem_cons_self _ _)
          rw [hl] at this
          simp at this
      | some c =>
          exact costStage_ok costs ds (fun d hd => h d (List.mem_cons_of_mem _ hd))

theorem fixedStage_error (fds : List (Loc × String)) :
    ∀ (depots : List Loc) (d : Loc),
      depots.find? (fun d' => (lookupFixed fds d').isNone) = some d →
      fixedStage fds depots = Except.error (OptError.keyError d)
  | [], d, h => by simp at h
  | d' :: ds, d, h => by
      rw [List.find?_cons] at h
      unfold fixedStage
      cases hl : lookupFixed fds d' with
      | none =>
          rw [hl] at h
          simp only [Option.isNone_none, cond_true, Option.some.injEq] at h
          subst h
          rfl
      | some s =>
          rw [hl] at h
          simp only [Option.isNone_some, cond_false] at h
          exact fixedStage_error fds ds d h

theorem fixedStage_ok (fds : List (Loc × String)) :
    ∀ depots : List Loc, (∀ d ∈ depots, (lookupFixed fds d).isSome) →
      fixedStage fds depots = Except.ok ()
  | [], _ => rfl
  | d' :: ds, h => by
      unfold fixedStage
      cases hl : lookupFixed fds d' with
      | none =>
          have := h d' (List.mem_cons_self _ _)
          rw [hl] at this
          simp at this
      | some s =>
          exact fixedStage_ok fds ds (fun d hd => h d (List.mem_cons_of_mem _ hd))

/-! ### Python-dict lemmas for the driving-times construction -/

theorem dget_dinsert_self (m : List ((Loc × Loc) × Int)) (p : Loc × Loc) (v dflt : Int) :
    dget (dinsert m p v) p dflt = v := by
  simp [dget, dinsert, List.find?_cons]

theorem dget_dinsert_ne (m : List ((Loc × Loc) × Int)) (p q : Loc × Loc) (v dflt : Int)
    (h : p ≠ q) : dget (dinsert m p v) q dflt = dget m q dflt := by
  simp [dget, dinsert, List.find?_cons, h]

theorem dmem_dinsert_self (m : List ((Loc × Loc) × Int)) (p : Loc × Loc) (v : Int) :
    dmem (dinsert m p v) p = true := by
  simp [dmem, dinsert, List.find?_cons]

theorem dmem_dinsert_ne (m : List ((Loc × Loc) × Int)) (p q : Loc × Loc) (v : Int)
    (h : p ≠ q) : dmem (dinsert m p v) q = dmem m q := by
  simp [dmem, dinsert, List.find?_cons, h]

theorem addTimesRow_preserves (m : List ((Loc × Loc) × Int)) (r : (Loc × Loc) × Int)
    (q : Loc × Loc) (h1 : r.1 ≠ q) (h2 : (r.1.2, r.1.1) ≠ q) (dflt : Int) :
    dget (addTimesRow m r) q dflt = dget m q dflt ∧
    dmem (addTimesRow m r) q = dmem m q := by
  unfold addTimesRow
  by_cases hd : dmem (dinsert m r.1 r.2) (r.1.2, r.1.1) = true
  · rw [if_pos hd]
    exact ⟨dget_dinsert_ne m r.1 q r.2 dflt h1, dmem_dinsert_ne m r.1 q r.2 h1⟩
  · rw [if_neg hd]
    constructor
    · rw [dget_dinsert_ne _ _ _ _ _ h2, dget_dinsert_ne m r.1 q r.2 dflt h1]
    · rw [dmem_dinsert_ne _ _ _ _ h2, dmem_dinsert_ne m r.1 q r.2 h1]

theorem foldl_times_preserve (i j : Loc) :
    ∀ (rows : List ((Loc × Loc) × Int)) (m : List ((Loc × Loc) × Int)),
      rows.filter (fun r => r.1 = (i, j)) = [] →
      rows.filter (fun r => r.1 = (j, i)) = [] →
      dget (rows.foldl addTimesRow m) (i, j) 0 = dget m (i, j) 0 ∧
      dget (rows.foldl addTimesRow m) (j, i) 0 = dget m (j, i) 0
  | [], m, _, _ => ⟨rfl, rfl⟩
  | r :: rows, m, h1, h2 => by
      rw [List.filter_cons] at h1 h2
      have hr1 : r.1 ≠ (i, j) := by
        intro h
        rw [if_pos (by simpa using h)] at h1
        simp at h1
      have hr2 : r.1 ≠ (j, i) := by
        intro h
        rw [if_pos (by simpa using h)] at h2
        simp at h2
      rw [if_neg (by simpa using hr1)] at h1
      rw [if_neg (by simpa using hr2)] at h2
      have hs1 : (r.1.2, r.1.1) ≠ (i, j) := by
        intro h
        rw [Prod.mk.injEq] at h
        exact hr2 (Prod.ext_iff.mpr ⟨h.2, h.1⟩)
      have hs2 : (r.1.2, r.1.1) ≠ (j, i) := by
        intro h
        rw [Prod.mk.injEq] at h
        exact hr1 (Prod.ext_iff.mpr ⟨h.2, h.1⟩)
      rw [List.foldl_cons]
      obtain ⟨e1, e2⟩ := foldl_times_preserve i j rows (addTimesRow m r) h1 h2
      obtain ⟨p1, _⟩ := addTimesRow_preserves m r (i, j) hr1 hs1 0
      obtain ⟨p2, _⟩ := addTimesRow_preserves m r (j, i) hr2 hs2 0
      rw [e1, e2, p1, p2]
      exact ⟨rfl, rfl⟩

theorem foldl_times_mirror (i j : Loc) (t : Int) :
    ∀ (rows : List ((Loc × Loc) × Int)) (m : List ((Loc × Loc) × Int)),
      rows.filter (fun r => r.1 = (i, j)) = [((i, j), t)] →
      rows.filter (fun r => r.1 = (j, i)) = [] →
      dmem m (i, j) = false → dmem m (j, i) = false →
      dget (rows.foldl addTimesRow m) (i, j) 0 = t ∧
      dget (rows.foldl addTimesRow m) (j, i) 0 = t
  | [], m, h1, _, _, _ => by simp at h1
  | r :: rows, m, h1, h2, hm1, hm2 => by
      rw [List.filter_cons] at h1 h2
      by_cases hr : r.1 = (i, j)
      · rw [if_pos (by simpa using hr)] at h1
        obtain ⟨hrt, hrest⟩ : r = ((i, j), t) ∧ rows.filter (fun r => r.1 = (i, j)) = [] := by
          injection h1 with ha hb
          exact ⟨ha, hb⟩
        have hij : i ≠ j := by
          intro h
          subst h
          rw [if_pos (by simpa using hr)] at h2
          simp at h2
        have hpne : ((i, j) : Loc × Loc) ≠ (j, i) := by
          intro h
          rw [Prod.mk.injEq] at h
          exact hij h.1
        have hr1ne : r.1 ≠ (j, i) := by
          rw [hrt]
          exact hpne
        have hrev : rows.filter (fun r => r.1 = (j, i)) = [] := by
          rw [if_neg (by simpa using hr1ne)] at h2
          exact h2
        rw [List.foldl_cons]
        have hstep : addTimesRow m r = dinsert (dinsert m (i, j) t) (j, i) t := by
          rw [hrt]
          unfold addTimesRow
          simp only
          rw [dmem_dinsert_ne m (i, j) (j, i) t hpne, hm2]
          rfl
        rw [hstep]
        obtain ⟨e1, e2⟩ := foldl_times_preserve i j rows
          (dinsert (dinsert m (i, j) t) (j, i) t) hrest hrev
        rw [e1, e2]
        constructor
        · rw [dget_dinsert_ne _ _ _ _ _ (fun h => hpne h.symm), dget_dinsert_self]
        · rw [dget_dinsert_self]
      · rw [if_neg (by simpa using hr)] at h1
        have hr2 : r.1 ≠ (j, i) := by
          intro h
          rw [if_pos (by simpa using h)] at h2
          simp at h2
        rw [if_neg (by simpa using hr2)] at h2
        have hs1 : (r.1.2, r.1.1) ≠ (i, j) := by
          intro h
          rw [Prod.mk.injEq] at h
          exact hr2 (Prod.ext_iff.mpr ⟨h.2, h.1⟩)
        have hs2 : (r.1.2, r.1.1) ≠ (j, i) := by
          intro h
          rw [Prod.mk.injEq] at h
          exact hr (Prod.ext_iff.mpr ⟨h.2, h.1⟩)
        rw [List.foldl_cons]
        obtain ⟨_, q1⟩ := addTimesRow_preserves m r (i, j) hr hs1 0
        obtain ⟨_, q2⟩ := addTimesRow_preserves m r (j, i) hr2 hs2 0
        exact foldl_times_mirror i j t rows (addTimesRow m r) h1 h2
          (q1 ▸ hm1) (q2 ▸ hm2)

/-! ### Chain helpers for subtour freedom -/

theorem chain'_imp_mem {α : Type} {r s : α → α → Prop} :
    ∀ c : List α, (∀ x ∈ c, ∀ y ∈ c, r x y → s x y) → List.Chain' r c → List.Chain' s c
  | [], _, _ => List.chain'_nil
  | [_], _, _ => List.chain'_singleton _
  | x :: y :: t, h, hc => by
      rw [List.chain'_cons] at hc ⊢
      refine ⟨h x (List.mem_cons_self _ _)
        y (List.mem_cons_of_mem _ (List.mem_cons_self _ _)) hc.1, ?_⟩
      exact chain'_imp_mem (y :: t)
        (fun p hp q hq => h p (List.mem_cons_of_mem _ hp) q (List.mem_cons_of_mem _ hq)) hc.2

theorem chain'_lt_head_last (f : Loc → Int) :
    ∀ c : List Loc, List.Chain' (fun x y => f x < f y) c → 2 ≤ c.length →
      ∀ x y, c.head? = some x → c.getLast? = some y → f x < f y
  | [], _, h2 => by simp at h2
  | [_], _, h2 => by simp at h2
  | x :: y :: t, hc, _ => by
      intro p q hp hq
      obtain rfl : p = x := by simpa using hp.symm
      rw [List.chain'_cons] at hc
      rcases t with _ | ⟨z, t'⟩
      · obtain rfl : q = y := by simpa using hq.symm
        exact hc.1
      · have hlast : (y :: z :: t').getLast? = some q := hq
        have := chain'_lt_head_last f (y :: z :: t') hc.2 (by simp) y q rfl hlast
        exact lt_trans hc.1 this

theorem linkKeysCheck_error (bank : Loc) (depots : List Loc) (i j : Loc) (k : Nat)
    (ks : List Nat)
    (h : ¬(i ≠ j ∧ i ∈ allLocations bank depots ∧ j ∈ allLocations bank depots)) :
    linkKeysCheck bank depots i j (k :: ks) = Except.error (OptError.keyErrorLink i j k) := by
  unfold linkKeysCheck
  rw [if_neg h]

theorem linkKeysCheck_ok (bank : Loc) (depots : List Loc) (i j : Loc)
    (h : i ≠ j ∧ i ∈ allLocations bank depots ∧ j ∈ allLocations bank depots) :
    ∀ ks : List Nat, linkKeysCheck bank depots i j ks = Except.ok ()
  | [] => rfl
  | _ :: ks => by
      unfold linkKeysCheck
      rw [if_pos h]
      exact linkKeysCheck_ok bank depots i j h ks

/-! ## Claim theorems -/

/-- C1: the claim states that the completion loop appends the unique `j` with
`link[current, j, k] = 1` for the route index `k` that seeded the route, so
that no reconstructed route mixes edges of different route indices.  The code
(optimizer.py lines 115-124) ignores `k`: on this feasible two-route
assignment (route 1: `B→S→A→B`, route 2: `B→E→B`, start `S`, end `E`) the
single reconstructed route `[S, A, B, S, E]` is seeded by the route-1 edge
`(S, A)` but contains the consecutive pair `(B, E)` selected only under route
index 2, and the consecutive pair `(S, E)` which is selected under no route
index at all: the two routes are spliced together. -/
theorem claim_C1 :
    feasible "B" exSpliceDepots "S" "E" (fun _ => "Not fixed") [] 0 2 exSplice ∧
    reconstructRoutes "B" exSpliceDepots "S" "E" 2 exSplice 10
      = some [["S", "A", "B", "S", "E"]] ∧
    exSplice.link "S" "A" 1 = true ∧ exSplice.link "B" "E" 2 = true ∧
    exSplice.link "B" "E" 1 = false ∧
    (∀ k ∈ allRoutes 2, exSplice.link "S" "E" k = false) := by
  decide

/-- C2 (counterexample): the claim as stated fails for custom anchors.  On
this feasible assignment (bank `B`, depots `S, E`, start `S`, end `E`, route
`B→S→E→B`) the extraction returns the single route `[S, E]`: the direct
shipment set is empty and the interior-stop set is empty, yet depot `S` is in
the input depot list — so the union of the two sets is not the depot list. -/
theorem claim_C2_counterexample :
    feasible "B" ["S", "E"] "S" "E" (fun _ => "Not fixed") [] 0 1 exAnchor ∧
    reconstructRoutes "B" ["S", "E"] "S" "E" 1 exAnchor 6 = some [["S", "E"]] ∧
    directShipments ["S", "E"] exAnchor = [] ∧
    interiors [["S", "E"]] = [] ∧
    "S" ∈ (["S", "E"] : List Loc) := by
  decide

/-- C2 (amended): for the default anchors `start_point = end_point = bank`
and a well-formed depot list, every assignment satisfying the assembled
model's constraints yields an extraction in which the direct-shipment keys
and the interior stops of the returned routes are disjoint and together cover
the depot list exactly: every depot is either a direct-shipment key or an
interior stop of exactly one route — never both, never neither. -/
theorem claim_C2_amended (bank : Loc) (depots : List Loc) (fd : Loc → String)
    (times : List ((Loc × Loc) × Int)) (maxTime : Int) (maxRoutes : Nat) (a : Assignment)
    (hfeas : feasible bank depots bank bank fd times maxTime maxRoutes a)
    (hnb : bank ∉ depots) (hnd : depots.Nodup)
    (fuel : Nat) (hf : depots.length + 2 ≤ fuel) :
    ∃ rs, reconstructRoutes bank depots bank bank maxRoutes a fuel = some rs ∧
      (∀ x ∈ interiors rs, x ∈ depots ∧ a.direct x = false ∧
        x ∉ directShipments depots a) ∧
      (∀ d ∈ depots, a.direct d = true →
        d ∈ directShipments depots a ∧ d ∉ interiors rs) ∧
      (∀ d ∈ depots, a.direct d = false → d ∉ directShipments depots a ∧
        (interiors rs).count d = 1 ∧ rs.countP (fun r => d ∈ interior r) = 1) :=
  partition_default_anchors bank depots fd times maxTime maxRoutes a hfeas hnb hnd fuel hf

/-- Witness for C2 (amended) on the concrete default-anchor scenario. -/
theorem claim_C2_witness :
    ∃ rs, reconstructRoutes "B" exPlainDepots "B" "B" 1 exPlain 6 = some rs ∧
      (∀ x ∈ interiors rs, x ∈ exPlainDepots ∧ exPlain.direct x = false ∧
        x ∉ directShipments exPlainDepots exPlain) ∧
      (∀ d ∈ exPlainDepots, exPlain.direct d = true →
        d ∈ directShipments exPlainDepots exPlain ∧ d ∉ interiors rs) ∧
      (∀ d ∈ exPlainDepots, exPlain.direct d = false →
        d ∉ directShipments exPlainDepots exPlain ∧
        (interiors rs).count d = 1 ∧ rs.countP (fun r => d ∈ interior r) = 1) :=
  claim_C2_amended "B" exPlainDepots exPlainFixed exPlainTimes 90 1 exPlain
    (by decide) (by decide) (by decide) 6 (by decide)

/-- C3: for every 0/1 link assignment and integer positions within
`[1, |Depots|]` satisfying the MTZ constraints, a selected edge `(i, j)` of
route `k` forces `position[i, k] < position[j, k]`; consequently no route
index admits a closed cycle consisting only of depots. -/
theorem claim_C3 (depots : List Loc) (maxRoutes : Nat) (a : Assignment)
    (_hpos : posOK depots maxRoutes a) (hmtz : mtzOK depots maxRoutes a) :
    (∀ i ∈ depots, ∀ j ∈ depots, ∀ k ∈ allRoutes maxRoutes, i ≠ j →
      a.link i j k = true → a.u i k < a.u j k) ∧
    (∀ k ∈ allRoutes maxRoutes,
      ¬∃ c : List Loc, 2 ≤ c.length ∧ (∀ x ∈ c, x ∈ depots) ∧
        c.head? = c.getLast? ∧
        List.Chain' (fun x y => x ≠ y ∧ a.link x y k = true) c) := by
  have hstrict : ∀ i ∈ depots, ∀ j ∈ depots, ∀ k ∈ allRoutes maxRoutes, i ≠ j →
      a.link i j k = true → a.u i k < a.u j k := by
    intro i hi j hj k hk hne hl
    have hm := hmtz i hi j hj k hk hne
    rw [hl] at hm
    simp only [natOf, cond_true, Nat.cast_one, mul_one] at hm
    omega
  refine ⟨hstrict, ?_⟩
  rintro k hk ⟨c, hlen, hmem, hhl, hchain⟩
  have hchain' : List.Chain' (fun x y => a.u x k < a.u y k) c :=
    chain'_imp_mem c
      (fun x hx y hy hr => hstrict x (hmem x hx) y (hmem y hy) k hk hr.1 hr.2) hchain
  obtain ⟨x, hx⟩ : ∃ x, c.head? = some x := by
    rcases c with _ | ⟨x, t⟩
    · simp at hlen
    · exact ⟨x, rfl⟩
  have hxx := chain'_lt_head_last (fun d => a.u d k) c hchain' hlen x x hx (hhl ▸ hx)
  omega

/-- Witness for C3 on the all-zero assignment over two depots. -/
theorem claim_C3_witness :
    (∀ i ∈ (["X", "Y"] : List Loc), ∀ j ∈ (["X", "Y"] : List Loc),
      ∀ k ∈ allRoutes 1, i ≠ j → exIdle.link i j k = true →
        exIdle.u i k < exIdle.u j k) ∧
    (∀ k ∈ allRoutes 1,
      ¬∃ c : List Loc, 2 ≤ c.length ∧ (∀ x ∈ c, x ∈ (["X", "Y"] : List Loc)) ∧
        c.head? = c.getLast? ∧
        List.Chain' (fun x y => x ≠ y ∧ exIdle.link x y k = true) c) :=
  claim_C3 ["X", "Y"] 1 exIdle (by decide) (by decide)

/-- C4: whenever the extraction of `optimize_routes` (optimizer.py) returns a
route list, every returned route starts at `start_point` and ends at
`end_point`; in the simplest variant (`app.py`) every returned route starts
and ends at the bank. -/
theorem claim_C4 :
    (∀ (bank : Loc) (depots : List Loc) (sp ep : Loc) (maxRoutes : Nat)
      (a : Assignment) (fuel : Nat) (rs : List (List Loc)),
      reconstructRoutes bank depots sp ep maxRoutes a fuel = some rs →
      ∀ r ∈ rs, r.head? = some sp ∧ r.getLast? = some ep) ∧
    (∀ (bank : Loc) (depots : List Loc) (y : Loc → Loc → Bool) (fuel : Nat)
      (rs : List (List Loc)),
      reconstructRoutesApp bank depots y fuel = some rs →
      ∀ r ∈ rs, r.head? = some bank ∧ r.getLast? = some bank) := by
  constructor
  · intro bank depots sp ep maxRoutes a fuel rs h r hr
    obtain ⟨s, hs, hcs⟩ := completeAll_sources bank depots ep maxRoutes a fuel _ rs h r hr
    unfold seedRoutes at hs
    rw [List.mem_map] at hs
    obtain ⟨j, _, rfl⟩ := hs
    have hhead := completeRoute_head bank depots ep maxRoutes a fuel _ r (by simp) hcs
    have hlast := completeRoute_last bank depots ep maxRoutes a fuel _ r hcs
    have hrne : r ≠ [] := by
      intro hre
      rw [hre] at hhead
      simp at hhead
    refine ⟨by rw [hhead]; rfl, ?_⟩
    have hgl := List.getLast?_eq_getLast r hrne
    rw [List.getLastD_eq_getLast?, hgl] at hlast
    simp only [Option.getD_some] at hlast
    rw [hgl, hlast]
  · intro bank depots y fuel rs h r hr
    obtain ⟨s, hs, hcs⟩ := completeAllApp_sources bank depots y fuel _ rs h r hr
    unfold seedRoutesApp at hs
    rw [List.mem_map] at hs
    obtain ⟨j, _, rfl⟩ := hs
    have hhead := completeRouteApp_head bank depots y fuel _ r (by simp) hcs
    have hlast := completeRouteApp_last bank depots y fuel _ r hcs
    have hrne : r ≠ [] := by
      intro hre
      rw [hre] at hhead
      simp at hhead
    refine ⟨by rw [hhead]; rfl, ?_⟩
    have hgl := List.getLast?_eq_getLast r hrne
    rw [List.getLastD_eq_getLast?, hgl] at hlast
    simp only [Option.getD_some] at hlast
    rw [hgl, hlast]

/-- Witness for C4 on concrete extractions of both variants. -/
theorem claim_C4_witness :
    (List.head? ["B", "A", "C", "B"] = some "B" ∧
      List.getLast? ["B", "A", "C", "B"] = some "B") ∧
    (List.head? ["B", "A", "B"] = some "B" ∧
      List.getLast? ["B", "A", "B"] = some "B") :=
  ⟨claim_C4.1 "B" exPlainDepots "B" "B" 1 exPlain 6 [["B", "A", "C", "B"]]
      (by decide) ["B", "A", "C", "B"] (by decide),
   claim_C4.2 "B" ["A"] exYApp 6 [["B", "A", "B"]]
      (by decide) ["B", "A", "B"] (by decide)⟩

/-- C5: the assembled model of `optimize_routes` contains, for every route
index `k`, the constraint that the driving time of the edges selected for
route `k` is at most `max_driving_time`; hence every assignment satisfying
the model — in particular every Optimal solution — keeps each route's modeled
driving time within the budget. -/
theorem claim_C5 (bank : Loc) (depots : List Loc) (sp ep : Loc) (fd : Loc → String)
    (times : List ((Loc × Loc) × Int)) (maxTime : Int) (maxRoutes : Nat)
    (a : Assignment)
    (hfeas : feasible bank depots sp ep fd times maxTime maxRoutes a) :
    ∀ k ∈ allRoutes maxRoutes, routeTimeExpr bank depots times a k ≤ maxTime := by
  obtain ⟨_, _, _, _, _, _, _, _, htime⟩ := hfeas
  exact htime

/-- Witness for C5 on the concrete default-anchor scenario. -/
theorem claim_C5_witness :
    routeTimeExpr "B" exPlainDepots exPlainTimes exPlain 1 ≤ 90 :=
  claim_C5 "B" exPlainDepots "B" "B" exPlainFixed exPlainTimes 90 1 exPlain
    (by decide) 1 (by decide)

/-- C6: under the assembled model's fixed-decision pinning constraints, a
depot whose decision is `'Ship to bank'` and which is neither the start nor
the end point has `direct = 1` and therefore appears in the returned
`direct_shipments`; a depot whose decision is `'Wait for pickup'` has
`direct = 0` and never appears in `direct_shipments`. -/
theorem claim_C6 (bank : Loc) (depots : List Loc) (sp ep : Loc) (fd : Loc → String)
    (times : List ((Loc × Loc) × Int)) (maxTime : Int) (maxRoutes : Nat)
    (a : Assignment)
    (hfeas : feasible bank depots sp ep fd times maxTime maxRoutes a) :
    ∀ d ∈ depots,
      (fd d = "Ship to bank" → d ≠ sp → d ≠ ep →
        a.direct d = true ∧ d ∈ directShipments depots a) ∧
      (fd d = "Wait for pickup" →
        a.direct d = false ∧ d ∉ directShipments depots a) := by
  obtain ⟨hfix, _, _, _, _, _, _, _, _⟩ := hfeas
  intro d hd
  constructor
  · intro h1 h2 h3
    have hdir := (hfix d hd).1 h1 h2 h3
    refine ⟨hdir, ?_⟩
    unfold directShipments
    rw [List.mem_filter]
    exact ⟨hd, by rw [hdir]⟩
  · intro h1
    have hdir := (hfix d hd).2 h1
    refine ⟨hdir, ?_⟩
    intro hds
    unfold directShipments at hds
    rw [List.mem_filter, hdir] at hds
    simpa using hds.2

/-- Witness for C6 on the concrete default-anchor scenario: depot `D` is
pinned to direct shipment, depot `A` is pinned to pickup. -/
theorem claim_C6_witness :
    (exPlain.direct "D" = true ∧ "D" ∈ directShipments exPlainDepots exPlain) ∧
    (exPlain.direct "A" = false ∧ "A" ∉ directShipments exPlainDepots exPlain) :=
  ⟨(claim_C6 "B" exPlainDepots "B" "B" exPlainFixed exPlainTimes 90 1 exPlain
      (by decide) "D" (by decide)).1 (by decide) (by decide) (by decide),
   (claim_C6 "B" exPlainDepots "B" "B" exPlainFixed exPlainTimes 90 1 exPlain
      (by decide) "A" (by decide)).2 (by decide)⟩

/-- C7 (counterexample): the claim states that a depot missing from the
direct-cost map makes the call fail with a `ConfigurationError` reported
before model construction.  `optimize_routes` performs no validation: on the
input with depot `A` and an empty cost map, the construction fails with an
untyped Python `KeyError` raised while the objective is assembled (after the
decision variables have been created), not with a `ConfigurationError`. -/
theorem claim_C7_counterexample :
    buildModel "B" ["A"] "B" "B" [] [("A", "Not fixed")] 1
        = Except.error (OptError.keyError "A") ∧
    (Except.error (OptError.keyError "A") : Except OptError Unit)
        ≠ Except.error OptError.configurationError := by
  refine ⟨rfl, ?_⟩
  intro h
  injection h with h2
  simp at h2

/-- C7 (amended): a depot missing from the direct-cost map makes the
construction fail with a `KeyError` naming the first such depot, raised at
objective assembly; a start designation outside the location set (with at
least one route) makes it fail with a `KeyError` on the link-variable key
`(bank, start_point, 1)`, raised when the start-anchoring constraint
(optimizer.py line 74, `link[bank, start_point, k]`) is assembled; an end
designation outside the location set (with a valid start) makes it fail with
a `KeyError` on the link-variable key `(end_point, bank, 1)`, raised when
the end-anchoring constraint (line 78, `link[end_point, bank, k]`) is
assembled.  In all cases no model is produced. -/
theorem claim_C7_amended (bank : Loc) (depots : List Loc) (sp ep : Loc)
    (costs : List (Loc × Int)) (fds : List (Loc × String)) (maxRoutes : Nat) :
    (∀ d, depots.find? (fun d' => (lookupCost costs d').isNone) = some d →
      buildModel bank depots sp ep costs fds maxRoutes
        = Except.error (OptError.keyError d)) ∧
    ((∀ d ∈ depots, (lookupCost costs d).isSome) →
      (∀ d ∈ depots, (lookupFixed fds d).isSome) →
      sp ≠ bank → sp ∉ depots → 1 ≤ maxRoutes →
      buildModel bank depots sp ep costs fds maxRoutes
        = Except.error (OptError.keyErrorLink bank sp 1)) ∧
    ((∀ d ∈ depots, (lookupCost costs d).isSome) →
      (∀ d ∈ depots, (lookupFixed fds d).isSome) →
      sp ∈ allLocations bank depots →
      ep ≠ bank → ep ∉ depots → 1 ≤ maxRoutes →
      buildModel bank depots sp ep costs fds maxRoutes
        = Except.error (OptError.keyErrorLink ep bank 1)) := by
  refine ⟨?_, ?_, ?_⟩
  · intro d h
    unfold buildModel
    rw [costStage_error costs depots d h]
  · intro hc hf hsb hsd hm
    unfold buildModel
    rw [costStage_ok costs depots hc, fixedStage_ok fds depots hf]
    have hsl : sp ∉ allLocations bank depots := by
      intro h
      rcases List.mem_cons.mp h with h | h
      · exact hsb h
      · exact hsd h
    obtain ⟨m, rfl⟩ : ∃ m, maxRoutes = m + 1 := ⟨maxRoutes - 1, by omega⟩
    have hroutes : allRoutes (m + 1) = 1 :: List.range' 2 m := rfl
    rw [if_neg hsb, hroutes,
      linkKeysCheck_error bank depots bank sp 1 (List.range' 2 m)
        (fun hcond => hsl hcond.2.2)]
  · intro hc hf hsp hepb hepd hm
    have hel : ep ∉ allLocations bank depots := by
      intro h
      rcases List.mem_cons.mp h with h | h
      · exact hepb h
      · exact hepd h
    obtain ⟨m, rfl⟩ : ∃ m, maxRoutes = m + 1 := ⟨maxRoutes - 1, by omega⟩
    have hroutes : allRoutes (m + 1) = 1 :: List.range' 2 m := rfl
    have hstart : (if sp = bank then Except.ok ()
        else linkKeysCheck bank depots bank sp (allRoutes (m + 1))) = Except.ok () := by
      by_cases hsb : sp = bank
      · rw [if_pos hsb]
      · rw [if_neg hsb]
        exact linkKeysCheck_ok bank depots bank sp
          ⟨fun hh => hsb hh.symm, List.mem_cons_self _ _, hsp⟩ (allRoutes (m + 1))
    unfold buildModel
    rw [costStage_ok costs depots hc, fixedStage_ok fds depots hf, hstart,
      if_neg hepb, hroutes,
      linkKeysCheck_error bank depots ep bank 1 (List.range' 2 m)
        (fun hcond => hel hcond.2.1)]

/-- Witness for C7 (amended) on concrete inputs: depot `C` lacks a cost
entry; start point `Z` is not a location; end point `Z` is not a location. -/
theorem claim_C7_witness :
    buildModel "B" ["A", "C"] "B" "B" [("A", 5)]
        [("A", "Not fixed"), ("C", "Not fixed")] 1
      = Except.error (OptError.keyError "C") ∧
    buildModel "B" ["A"] "Z" "B" [("A", 5)] [("A", "Not fixed")] 1
      = Except.error (OptError.keyErrorLink "B" "Z" 1) ∧
    buildModel "B" ["A"] "B" "Z" [("A", 5)] [("A", "Not fixed")] 1
      = Except.error (OptError.keyErrorLink "Z" "B" 1) :=
  ⟨(claim_C7_amended "B" ["A", "C"] "B" "B" [("A", 5)]
      [("A", "Not fixed"), ("C", "Not fixed")] 1).1 "C" (by decide),
   (claim_C7_amended "B" ["A"] "Z" "B" [("A", 5)] [("A", "Not fixed")] 1).2.1
      (by decide) (by decide) (by decide) (by decide) (by decide),
   (claim_C7_amended "B" ["A"] "B" "Z" [("A", 5)] [("A", "Not fixed")] 1).2.2
      (by decide) (by decide) (by decide) (by decide) (by decide) (by decide)⟩

/-- C8: the claim states that the completion loop terminates on every solver
assignment within an explicit step bound and raises
`ReconstructionInconsistency` on overrun.  The loop (optimizer.py lines
115-124) has no step bound and no such error: on the malformed assignment
whose only selected edge is `B → A`, depot `A` has no outgoing selected
edge, the route never changes, and the `while` loop never exits — the
fuel-indexed embedding returns `none` for every fuel value. -/
theorem claim_C8 :
    ∀ fuel, reconstructRoutes "B" ["A"] "B" "B" 1 exStuck fuel = none := by
  intro fuel
  unfold reconstructRoutes
  have hseeds : seedRoutes ["A"] "B" 1 exStuck = [["B", "A"]] := by decide
  rw [hseeds]
  unfold completeAll
  rw [stuck_route_diverges fuel]

/-- C9 (counterexample): the claim states that the later variants do not
auto-mirror the driving times.  `prepare_optimization_data` in
`data_handler.py` (lines 71-80) mirrors exactly like `app.py`: on the
single-row input `(A, B, 10)` its dict contains the reverse key `(B, A)`
with the same time. -/
theorem claim_C9_counterexample :
    dmem (prepareBuildTimes [(("A", "B"), 10)]) ("B", "A") = true ∧
    dget (prepareBuildTimes [(("A", "B"), 10)]) ("B", "A") 0 = 10 := by
  decide

/-- C9 (amended): both the simplest variant (`main` in app.py, lines
263-272) and the later variant (`prepare_optimization_data` in
data_handler.py, lines 71-80) auto-mirror: when the driving-times input
supplies exactly one entry for the ordered pair `(i, j)` and none for
`(j, i)`, both constructed maps assign `(j, i)` the same time as `(i, j)`. -/
theorem claim_C9_amended (rows : List ((Loc × Loc) × Int)) (i j : Loc) (t : Int)
    (h1 : rows.filter (fun r => r.1 = (i, j)) = [((i, j), t)])
    (h2 : rows.filter (fun r => r.1 = (j, i)) = []) :
    dget (mainBuildTimes rows) (i, j) 0 = t ∧
    dget (mainBuildTimes rows) (j, i) 0 = t ∧
    dget (prepareBuildTimes rows) (i, j) 0 = t ∧
    dget (prepareBuildTimes rows) (j, i) 0 = t := by
  have hm := foldl_times_mirror i j t rows [] h1 h2 rfl rfl
  exact ⟨hm.1, hm.2, hm.1, hm.2⟩

/-- Witness for C9 (amended) on the single-row input `(A, B, 10)`. -/
theorem claim_C9_witness :
    dget (mainBuildTimes [(("A", "B"), 10)]) ("A", "B") 0 = 10 ∧
    dget (mainBuildTimes [(("A", "B"), 10)]) ("B", "A") 0 = 10 ∧
    dget (prepareBuildTimes [(("A", "B"), 10)]) ("A", "B") 0 = 10 ∧
    dget (prepareBuildTimes [(("A", "B"), 10)]) ("B", "A") 0 = 10 :=
  claim_C9_amended [(("A", "B"), 10)] "A" "B" 10 (by decide) (by decide)

/-- C10: the depot list produced by `prepare_optimization_data` (and by the
identical fragment of `main` in app.py) never contains the bank designation:
the bank is the first depot record's designation and its occurrence is
removed from the included list when present (designations are unique, so the
single `list.remove` suffices). -/
theorem claim_C10 (allDesignations : List Loc) (includedIndices : List Nat)
    (bank : Loc) (deps : List Loc)
    (hnd : (includedIndices.filterMap (fun i => allDesignations.get? i)).Nodup)
    (hp : prepareDepotList allDesignations includedIndices = some (bank, deps)) :
    bank ∉ deps ∧ mainDepotList allDesignations includedIndices = some (bank, deps) := by
  have hmp : mainDepotList allDesignations includedIndices
      = prepareDepotList allDesignations includedIndices := rfl
  refine ⟨?_, by rw [hmp, hp]⟩
  cases hh : allDesignations.head? with
  | none => simp [prepareDepotList, hh] at hp
  | some b =>
      simp only [prepareDepotList, hh, Option.some.injEq, Prod.mk.injEq] at hp
      obtain ⟨rfl, rfl⟩ := hp
      by_cases hb : b ∈ includedIndices.filterMap (fun i => allDesignations.get? i)
      · rw [if_pos hb]
        exact hnd.not_mem_erase
      · rw [if_neg hb]
        exact hb

/-- Witness for C10 on a concrete sheet: designations `B, A, C`, included
rows 0 and 2 — the bank `B` is removed from the included list. -/
theorem claim_C10_witness :
    "B" ∉ (["C"] : List Loc) ∧
    mainDepotList ["B", "A", "C"] [0, 2] = some ("B", ["C"]) :=
  claim_C10 ["B", "A", "C"] [0, 2] "B" ["C"] (by decide) (by decide)

end DepotRouting
